import Mathlib

/-!
# CPYU-V16: shallow embedding of `src/cpyu.py` and verification of its spec

This file embeds the CPYU-V16 CPU simulator and assembler (a single Python
source file) into Lean 4, and settles the frozen claims about its
natural-language specification.

Modelling conventions:
* Python `int` is `Int`; values stored in registers and memory are `Int`
  (the code keeps them in `[0, 65535]` by masking, which we prove).
* Python `x & 0xFFFF` (masking to 16 bits) is embedded as `x % 65536`
  (`Int.emod`, which agrees with Python's `%` on all inputs; bitwise AND
  with `2^16 - 1` on a Python integer is exactly reduction modulo `2^16`).
* Strings are `List Char` (ASCII; the exotic Unicode behaviour of Python's
  `str.isdigit`/`str.strip` on non-ASCII code points is outside the model).
* Exceptions (`ValueError`, `RuntimeError`, `AsmError`) become `Except`:
  a Python function that may raise returns `Except ε α`.
* `stdin` is a list of input lines; `readline` at end of list models EOF.
  Text printed by `OUT` is collected in an output list.  The optional
  trace printing (`_trace`) only writes to the screen and never affects
  machine state; it is not modelled.
-/

namespace CPYU

/-- Shorthand: the character list of a string literal. -/
def str (s : String) : List Char := s.data

/-- The whitespace characters stripped by Python's `str.strip()` /
split on by `str.split()` (ASCII fragment). -/
def isPySpace (c : Char) : Bool :=
  c = ' ' || c = '\t' || c = '\n' || c = '\r' || c = '\x0b' || c = '\x0c'

/-- Python `str.strip()`: remove leading and trailing whitespace. -/
def pyStrip (s : List Char) : List Char :=
  ((s.dropWhile isPySpace).reverse.dropWhile isPySpace).reverse

/-- Python `str.lower()` on one character (ASCII fragment). -/
def pyToLower (c : Char) : Char :=
  if 65 ≤ c.toNat ∧ c.toNat ≤ 90 then Char.ofNat (c.toNat + 32) else c

/-- Python `str.upper()` on one character (ASCII fragment). -/
def pyToUpper (c : Char) : Char :=
  if 97 ≤ c.toNat ∧ c.toNat ≤ 122 then Char.ofNat (c.toNat - 32) else c

/-- Python `str.isdigit()` on one character (ASCII fragment: `0`-`9`). -/
def isDig (c : Char) : Bool :=
  48 ≤ c.toNat && c.toNat ≤ 57

/-- Python `str.split()` (no separator): split on runs of whitespace,
dropping empty pieces.  Worker carrying the current (reversed) token. -/
def splitWsAux : List Char → List Char → List (List Char)
  | [], acc => if acc = [] then [] else [acc.reverse]
  | c :: rest, acc =>
    if isPySpace c then
      if acc = [] then splitWsAux rest []
      else acc.reverse :: splitWsAux rest []
    else splitWsAux rest (c :: acc)

/-- Python `str.split()` with no argument. -/
def splitWs (s : List Char) : List (List Char) := splitWsAux s []

/-- Python `str.splitlines()` (ASCII fragment: `\n`, `\r`, `\r\n`).
Worker carrying the current (reversed) line. -/
def pySplitlinesAux : List Char → List Char → List (List Char)
  | [], acc => if acc = [] then [] else [acc.reverse]
  | '\r' :: '\n' :: rest, acc => acc.reverse :: pySplitlinesAux rest []
  | '\n' :: rest, acc => acc.reverse :: pySplitlinesAux rest []
  | '\r' :: rest, acc => acc.reverse :: pySplitlinesAux rest []
  | c :: rest, acc => pySplitlinesAux rest (c :: acc)

/-- Python `str.splitlines()`. -/
def pySplitlines (s : List Char) : List (List Char) := pySplitlinesAux s []

/-- Value of an ASCII hexadecimal digit (`0-9`, `a-f`, `A-F`). -/
def hexVal? (c : Char) : Option Nat :=
  if 48 ≤ c.toNat ∧ c.toNat ≤ 57 then some (c.toNat - 48)
  else if 97 ≤ c.toNat ∧ c.toNat ≤ 102 then some (c.toNat - 97 + 10)
  else if 65 ≤ c.toNat ∧ c.toNat ≤ 70 then some (c.toNat - 65 + 10)
  else none

/-- Value of a string of decimal digits (callers check `isDigit` first). -/
def decVal (s : List Char) : Nat :=
  s.foldl (fun acc c => 10 * acc + (c.toNat - '0'.toNat)) 0

/-- Digit loop of CPython's `int(s, 16)`: hexadecimal digits with single
underscores allowed between digits (and directly after the `0x` prefix).
`usOk` records whether an underscore may appear here; `seen` whether at
least one digit has been read. -/
def hexDigitsVal : List Char → Bool → Nat → Bool → Option Nat
  | [], usOk, acc, seen => if seen && usOk then some acc else none
  | c :: rest, usOk, acc, seen =>
    if c = '_' then
      if usOk then hexDigitsVal rest false acc seen else none
    else
      match hexVal? c with
      | some d => hexDigitsVal rest true (16 * acc + d) true
      | none => none

/-- CPython's `int(s, 16)` (ASCII fragment): optional surrounding
whitespace, optional sign, optional `0x`/`0X` prefix, then hexadecimal
digits possibly separated by single underscores.  `none` models the
`ValueError` raised by `int`. -/
def pyIntHex (s : List Char) : Option Int :=
  let t := pyStrip s
  let signSplit : Bool × List Char :=
    match t with
    | c :: rest => if c = '+' ∨ c = '-' then (c = '-', rest) else (false, t)
    | [] => (false, t)
  let t1 := signSplit.2
  let pfxSplit : Bool × List Char :=
    if (t1.map pyToLower).take 2 = ['0', 'x'] then (true, t1.drop 2)
    else (false, t1)
  match hexDigitsVal pfxSplit.2 pfxSplit.1 0 false with
  | some n => some (if signSplit.1 then -(n : Int) else (n : Int))
  | none => none

/-- `parse_int_token` (`src/cpyu.py`): parse a decimal or `0x`-hexadecimal
integer with optional sign, whitespace tolerant.  `Except.error` models the
raised `ValueError`.  Note the code re-strips after removing the sign, and
the hexadecimal branch hands the remainder to Python's `int(·, 16)`. -/
def parse_int_token (tok : List Char) : Except String Int :=
  let s0 := pyStrip tok
  if s0 = [] then .error "empty number"
  else
    let neg := s0.head? = some '-'
    let s1 :=
      if s0.head? = some '+' ∨ s0.head? = some '-' then pyStrip s0.tail else s0
    let base16 := (s1.map pyToLower).take 2 = ['0', 'x']
    let s2 := if base16 then s1.drop 2 else s1
    if s2 = [] then .error "missing digits"
    else if base16 then
      match pyIntHex s2 with
      | some v => .ok (if neg then -v else v)
      | none => .error "invalid hexadecimal"
    else
      if s2.all isDig then
        let v : Int := (decVal s2 : Nat)
        .ok (if neg then -v else v)
      else .error "invalid decimal"

/-- `U16_MASK`, `NUM_REGS`, `MEM_SIZE` from the source. -/
def NUM_REGS : Nat := 32

/-- Memory size: 65536 words. -/
def MEM_SIZE : Nat := 65536

/-- `u16(x)`: the source computes `x & 0xFFFF`; bitwise AND of a Python
integer with `2^16 - 1` is reduction modulo `2^16`, embedded as `Int.emod`
(whose result is always in `[0, 65536)`, like Python's `&`/`%`). -/
def u16 (x : Int) : Int := x % 65536

/-- `to_signed16(x)`: unsigned 16-bit value reinterpreted as
two's-complement signed (`-32768 .. 32767`). -/
def to_signed16 (x : Int) : Int :=
  let y := x % 65536
  if y < 0x8000 then y else y - 0x10000

/-- One decimal digit character. -/
def decDigitChar (d : Nat) : Char := Char.ofNat (48 + d)

/-- One lowercase hexadecimal digit character. -/
def hexDigitChar (d : Nat) : Char :=
  if d < 10 then Char.ofNat (48 + d) else Char.ofNat (87 + d)

/-- Worker for decimal rendering: peels the least significant digit onto
`acc`; `fuel` bounds the recursion (any `fuel > log10 n` is enough). -/
def decCharsCore : Nat → Nat → List Char → List Char
  | 0, _, acc => acc
  | fuel + 1, n, acc =>
    if n < 10 then decDigitChar n :: acc
    else decCharsCore fuel (n / 10) (decDigitChar (n % 10) :: acc)

/-- Decimal digit characters of `n`, most significant first
(rendering used by Python's `format`). -/
def decChars (n : Nat) : List Char := decCharsCore (n + 1) n []

/-- Worker for lowercase hexadecimal rendering. -/
def hexCharsCore : Nat → Nat → List Char → List Char
  | 0, _, acc => acc
  | fuel + 1, n, acc =>
    if n < 16 then hexDigitChar n :: acc
    else hexCharsCore fuel (n / 16) (hexDigitChar (n % 16) :: acc)

/-- Lowercase hexadecimal digit characters of `n`, most significant first. -/
def hexChars (n : Nat) : List Char := hexCharsCore (n + 1) n []

/-- Zero-pad on the left to a minimum width (Python's `0`-fill format). -/
def zfill (w : Nat) (s : List Char) : List Char :=
  List.replicate (w - s.length) '0' ++ s

/-- Python `f-string` piece `{absval:05d}` — decimal, zero-padded to at
least five characters. -/
def fmt05d (n : Nat) : List Char := zfill 5 (decChars n)

/-- Python `f-string` piece `{v:04x}` — lowercase hexadecimal, zero-padded
to at least four characters (a negative value carries a `-` inside the
width, as in Python; unreachable at the call site). -/
def fmt04x (v : Int) : List Char :=
  if v < 0 then '-' :: zfill 3 (hexChars v.natAbs) else zfill 4 (hexChars v.natAbs)

/-- The line of text emitted by `OUT` for the raw register value `v`
(the source's second, effective assignment to `text`; the first assignment
is immediately overwritten and has no effect). -/
def outLine (v : Int) : List Char :=
  let signed := to_signed16 v
  (if 0 ≤ signed then ['+'] else ['-']) ++ fmt05d signed.natAbs ++
    str " (0x" ++ fmt04x v ++ str ")"

/-- `Instr`: a decoded instruction — mnemonic plus a tuple of small
integers (register indices, immediates, targets). -/
structure Instr where
  op : List Char
  args : List Int
deriving DecidableEq, Repr

/-- `CPU` machine state: registers, memory, program counter (an index
into `prog`, not a byte address), and the program.  The `labels`,
`single_step` and `on_out` fields of the Python class do not affect
execution semantics (tracing and output sink) and are not modelled;
outputs are threaded explicitly through `step`. -/
structure CPU where
  reg : List Int
  mem : List Int
  pc : Int
  prog : List Instr
deriving Repr

/-- `CPU.__init__` with a given program: 32 zeroed registers, 65536
zeroed memory words, `pc = 0`. -/
def initCPU (prog : List Instr) : CPU :=
  { reg := List.replicate NUM_REGS 0
    mem := List.replicate MEM_SIZE 0
    pc := 0
    prog := prog }

/-- Python list indexing rule: a negative index counts from the end. -/
def pyIdx (len : Nat) (i : Int) : Int :=
  if i < 0 then i + len else i

/-- Python list read `l[i]`: a negative index wraps once from the end;
out of range raises `IndexError` (modelled as `Except.error`). -/
def pyGet (l : List Int) (i : Int) : Except String Int :=
  if 0 ≤ pyIdx l.length i then
    match l.get? (pyIdx l.length i).toNat with
    | some v => .ok v
    | none => .error "list index out of range"
  else .error "list index out of range"

/-- Python list write `l[i] = v` (same index rules as `pyGet`). -/
def pySetL (l : List Int) (i : Int) (v : Int) : Except String (List Int) :=
  if 0 ≤ pyIdx l.length i ∧ (pyIdx l.length i).toNat < l.length then
    .ok (l.set (pyIdx l.length i).toNat v)
  else .error "list assignment index out of range"

/-- `CPU.mread`: bounds-checked memory read.  After the explicit
`0 <= addr < MEM_SIZE` check the index is nonnegative, so Python's
indexing is plain `get?` (an `IndexError` on a too-short list is still an
`Except.error`). -/
def mread (c : CPU) (addr : Int) : Except String Int :=
  if 0 ≤ addr ∧ addr < (MEM_SIZE : Int) then
    match c.mem.get? addr.toNat with
    | some v => .ok v
    | none => .error "list index out of range"
  else .error "Memory read OOB"

/-- `CPU.mwrite`: bounds-checked memory write; the stored value is masked
to 16 bits. -/
def mwrite (c : CPU) (addr val : Int) : Except String CPU :=
  if 0 ≤ addr ∧ addr < (MEM_SIZE : Int) then
    match c.mem.get? addr.toNat with
    | some _ => .ok { c with mem := c.mem.set addr.toNat (u16 val) }
    | none => .error "list assignment index out of range"
  else .error "Memory write OOB"

/-- `CPU._set_reg`: writes to register 0 return immediately (hard-wired
zero); otherwise the masked value is stored. -/
def setReg (c : CPU) (rd val : Int) : Except String CPU :=
  if rd = 0 then .ok c
  else do
    let r ← pySetL c.reg rd (u16 val)
    .ok { c with reg := r }

/-- The dispatch part of `CPU.step` (the `if op == ... / elif ...` chain
after the fetch and the `pc` increment), on a state whose `pc` has already
been advanced.  Returns `(continue?, state, remaining stdin, lines
output)`. -/
def stepExec (c : CPU) (instr : Instr) (stdin : List (List Char)) :
    Except String (Bool × CPU × List (List Char) × List (List Char)) :=
      if instr.op = str "ADD" then
        match instr.args with
        | [rd, rs1, rs2] => do
          let x ← pyGet c.reg rs1
          let y ← pyGet c.reg rs2
          let c1 ← setReg c rd (x + y)
          .ok (true, c1, stdin, [])
        | _ => .error "bad operand tuple"
      else if instr.op = str "ADDI" then
        match instr.args with
        | [rd, rs1, imm] => do
          let x ← pyGet c.reg rs1
          let c1 ← setReg c rd (x + imm)
          .ok (true, c1, stdin, [])
        | _ => .error "bad operand tuple"
      else if instr.op = str "SUB" then
        match instr.args with
        | [rd, rs1, rs2] => do
          let x ← pyGet c.reg rs1
          let y ← pyGet c.reg rs2
          let c1 ← setReg c rd (x - y)
          .ok (true, c1, stdin, [])
        | _ => .error "bad operand tuple"
      else if instr.op = str "AND" then
        match instr.args with
        | [rd, rs1, rs2] => do
          let x ← pyGet c.reg rs1
          let y ← pyGet c.reg rs2
          let c1 ← setReg c rd (Int.land x y)
          .ok (true, c1, stdin, [])
        | _ => .error "bad operand tuple"
      else if instr.op = str "OR" then
        match instr.args with
        | [rd, rs1, rs2] => do
          let x ← pyGet c.reg rs1
          let y ← pyGet c.reg rs2
          let c1 ← setReg c rd (Int.lor x y)
          .ok (true, c1, stdin, [])
        | _ => .error "bad operand tuple"
      else if instr.op = str "XOR" then
        match instr.args with
        | [rd, rs1, rs2] => do
          let x ← pyGet c.reg rs1
          let y ← pyGet c.reg rs2
          let c1 ← setReg c rd (Int.xor x y)
          .ok (true, c1, stdin, [])
        | _ => .error "bad operand tuple"
      else if instr.op = str "LD" then
        match instr.args with
        | [rd, addr] => do
          let v ← mread c addr
          let c1 ← setReg c rd v
          .ok (true, c1, stdin, [])
        | _ => .error "bad operand tuple"
      else if instr.op = str "ST" then
        match instr.args with
        | [rs, addr] => do
          let v ← pyGet c.reg rs
          let c1 ← mwrite c addr v
          .ok (true, c1, stdin, [])
        | _ => .error "bad operand tuple"
      else if instr.op = str "BEQ" then
        match instr.args with
        | [rs1, rs2, target] => do
          let x ← pyGet c.reg rs1
          let y ← pyGet c.reg rs2
          if x = y then .ok (true, { c with pc := target }, stdin, [])
          else .ok (true, c, stdin, [])
        | _ => .error "bad operand tuple"
      else if instr.op = str "BNE" then
        match instr.args with
        | [rs1, rs2, target] => do
          let x ← pyGet c.reg rs1
          let y ← pyGet c.reg rs2
          if x ≠ y then .ok (true, { c with pc := target }, stdin, [])
          else .ok (true, c, stdin, [])
        | _ => .error "bad operand tuple"
      else if instr.op = str "JMP" then
        match instr.args with
        | [target] => .ok (true, { c with pc := target }, stdin, [])
        | _ => .error "bad operand tuple"
      else if instr.op = str "IN" then
        match instr.args with
        | [rd] =>
          match stdin with
          | [] => .error "IN: EOF on stdin"
          | line :: rest =>
            match parse_int_token (line ++ ['\n']) with
            | .error e => .error ("IN: invalid input — " ++ e)
            | .ok v =>
              if v < -32768 ∨ 65535 < v then
                .error "IN: value out of range [-32768, 65535]"
              else do
                let c1 ← setReg c rd v
                .ok (true, c1, rest, [])
        | _ => .error "bad operand tuple"
      else if instr.op = str "OUT" then
        match instr.args with
        | [rs] => do
          let v ← pyGet c.reg rs
          .ok (true, c, stdin, [outLine v])
        | _ => .error "bad operand tuple"
      else if instr.op = str "HALT" then .ok (false, c, stdin, [])
      else .error "Unknown op"

/-- `CPU.step`: if `pc` is outside `[0, len(prog))` report termination
without side effects; otherwise fetch the instruction at `pc`, advance
`pc` by one, and execute via `stepExec`.  The `Bool` result is `false` on
`HALT` or an out-of-program `pc`, mirroring the Python return value;
`Except.error` models a raised `RuntimeError`. -/
def step (c0 : CPU) (stdin : List (List Char)) :
    Except String (Bool × CPU × List (List Char) × List (List Char)) :=
  if c0.pc < 0 ∨ (c0.prog.length : Int) ≤ c0.pc then .ok (false, c0, stdin, [])
  else
    match c0.prog.get? c0.pc.toNat with
    | none => .error "internal: fetch failed"
    | some instr => stepExec { c0 with pc := c0.pc + 1 } instr stdin

/-- The loop of `CPU.run`: `while steps < max_steps and self.step():
steps += 1`, accumulating output lines.  The first argument is the
remaining iteration budget `max_steps - steps` (so `0` means the `steps <
max_steps` test just failed); `steps` is the running counter. -/
def runLoop : Nat → CPU → List (List Char) → Nat → List (List Char) →
    Except String (Nat × CPU × List (List Char) × List (List Char))
  | 0, c, stdin, steps, outs => .ok (steps, c, stdin, outs)
  | fuel + 1, c, stdin, steps, outs =>
    match step c stdin with
    | .error e => .error e
    | .ok (true, c1, stdin1, o) => runLoop fuel c1 stdin1 (steps + 1) (outs ++ o)
    | .ok (false, c1, stdin1, o) => .ok (steps, c1, stdin1, outs ++ o)

/-- `CPU.run` with an explicit step budget (Python's `max_steps`
parameter); returns the final `steps` counter. -/
def runWith (c : CPU) (stdin : List (List Char)) (maxSteps : Nat) :
    Except String (Nat × CPU × List (List Char) × List (List Char)) :=
  runLoop maxSteps c stdin 0 []

/-- `CPU.run()` with the default ceiling of 1,000,000 iterations. -/
def run (c : CPU) (stdin : List (List Char)) :
    Except String (Nat × CPU × List (List Char) × List (List Char)) :=
  runWith c stdin 1000000

/-- Specification helper: execute exactly `n` steps that all return
`true`, collecting output.  `.ok none` means some step in the prefix
signalled termination; `.error` means some step faulted. -/
def iterTrue : Nat → CPU → List (List Char) →
    Except String (Option (CPU × List (List Char) × List (List Char)))
  | 0, c, stdin => .ok (some (c, stdin, []))
  | n + 1, c, stdin =>
    match step c stdin with
    | .error e => .error e
    | .ok (false, _, _, _) => .ok none
    | .ok (true, c1, stdin1, o) =>
      match iterTrue n c1 stdin1 with
      | .error e => .error e
      | .ok none => .ok none
      | .ok (some (c2, stdin2, o2)) => .ok (some (c2, stdin2, o ++ o2))

/-- `AsmError`: line-numbered assembly error.  The Python class carries
the line number inside the message text (`"Line {ln}: ..."`); it is
modelled as an explicit field plus the rest of the message. -/
structure AsmError where
  line : Nat
  msg : String
deriving DecidableEq, Repr

/-- `clean` (inner function of `assemble`): truncate at the first `;`,
then at the first `#`, then strip. -/
def clean (line : List Char) : List Char :=
  pyStrip ((line.takeWhile (· ≠ ';')).takeWhile (· ≠ '#'))

/-- The `cleaned` list built during pass 1: 1-based line numbers paired
with cleaned lines. -/
def cleanedLines (src : List Char) : List (Nat × List Char) :=
  ((pySplitlines src).enumFrom 1).map (fun p => (p.1, clean p.2))

/-- `is_reg`: `r`/`R` followed by a decimal number in `0..31`. -/
def is_reg (tok : List Char) : Bool :=
  match (pyStrip tok).map pyToLower with
  | 'r' :: rest =>
    !rest.isEmpty && rest.all isDig && decide (decVal rest < NUM_REGS)
  | _ => false

/-- `reg_idx`: register token to index, or a line-numbered error. -/
def reg_idx (tok : List Char) (ln : Nat) : Except AsmError Int :=
  if is_reg tok then .ok ((decVal (((pyStrip tok).map pyToLower).tail) : Nat) : Int)
  else .error ⟨ln, "expected register r0..r31"⟩

/-- `parse_imm`: parse an immediate, range-check it to
`[-32768, 65535]`, and store it pre-masked to 16 bits. -/
def parse_imm (tok : List Char) (ln : Nat) : Except AsmError Int :=
  match parse_int_token tok with
  | .error e => .error ⟨ln, "invalid immediate — " ++ e⟩
  | .ok v =>
    if v < -32768 ∨ 65535 < v then
      .error ⟨ln, "immediate out of range [-32768, 65535]"⟩
    else .ok (u16 v)

/-- One iteration of the pass-1 loop body: threading the `pc` counter and
the label table through one (already cleaned) line. -/
def pass1Line (ln : Nat) (line : List Char) (pc : Nat)
    (tbl : List (List Char × Nat)) :
    Except AsmError (Nat × List (List Char × Nat)) :=
  if line = [] then .ok (pc, tbl)
  else if line.getLast? = some ':' then
    let label := pyStrip line.dropLast
    if label = [] ∨ ' ' ∈ label ∨ '\t' ∈ label then
      .error ⟨ln, "invalid label"⟩
    else if (tbl.lookup label).isSome then .error ⟨ln, "duplicate label"⟩
    else .ok (pc, tbl ++ [(label, pc)])
  else .ok (pc + 1, tbl)

/-- Pass 1 of `assemble`: collect labels and their instruction indices. -/
def pass1Aux : List (Nat × List Char) → Nat → List (List Char × Nat) →
    Except AsmError (List (List Char × Nat))
  | [], _, tbl => .ok tbl
  | (ln, line) :: rest, pc, tbl =>
    match pass1Line ln line pc tbl with
    | .error e => .error e
    | .ok (pc1, tbl1) => pass1Aux rest pc1 tbl1

/-- `toks_for`: commas become spaces, then split on whitespace. -/
def toks_for (line : List Char) : List (List Char) :=
  splitWs (line.map (fun c => if c = ',' then ' ' else c))

/-- `label_or_imm`: branch/jump targets may be labels; otherwise they are
parsed as numeric immediates. -/
def label_or_imm (tbl : List (List Char × Nat)) (tok : List Char) (ln : Nat) :
    Except AsmError Int :=
  match tbl.lookup tok with
  | some v => .ok ((v : Nat) : Int)
  | none => parse_imm tok ln

/-- The pass-2 loop body for one non-blank, non-label line: tokenize,
dispatch on the (upper-cased) mnemonic with its fixed arity, and encode
one instruction.  The `[]` token case is unreachable (a cleaned non-blank
line always yields at least one token). -/
def encodeStmt (tbl : List (List Char × Nat)) (ln : Nat) (line : List Char) :
    Except AsmError Instr :=
  match toks_for line with
  | [] => .error ⟨ln, "internal: empty statement"⟩
  | tok0 :: args =>
    let op := tok0.map pyToUpper
    if op = str "LI" then
      match args with
      | [a0, a1] => do
        let rd ← reg_idx a0 ln
        let imm ← parse_imm a1 ln
        .ok ⟨str "ADDI", [rd, 0, imm]⟩
      | _ => .error ⟨ln, "wrong operand count"⟩
    else if op = str "MOV" then
      match args with
      | [a0, a1] => do
        let rd ← reg_idx a0 ln
        let rs ← reg_idx a1 ln
        .ok ⟨str "ADD", [rd, rs, 0]⟩
      | _ => .error ⟨ln, "wrong operand count"⟩
    else if op = str "ADD" ∨ op = str "SUB" ∨ op = str "AND" ∨
        op = str "OR" ∨ op = str "XOR" then
      match args with
      | [a0, a1, a2] => do
        let rd ← reg_idx a0 ln
        let rs1 ← reg_idx a1 ln
        let rs2 ← reg_idx a2 ln
        .ok ⟨op, [rd, rs1, rs2]⟩
      | _ => .error ⟨ln, "wrong operand count"⟩
    else if op = str "ADDI" then
      match args with
      | [a0, a1, a2] => do
        let rd ← reg_idx a0 ln
        let rs1 ← reg_idx a1 ln
        let imm ← parse_imm a2 ln
        .ok ⟨str "ADDI", [rd, rs1, imm]⟩
      | _ => .error ⟨ln, "wrong operand count"⟩
    else if op = str "LD" then
      match args with
      | [a0, a1] => do
        let rd ← reg_idx a0 ln
        let addr ← parse_imm a1 ln
        .ok ⟨str "LD", [rd, addr]⟩
      | _ => .error ⟨ln, "wrong operand count"⟩
    else if op = str "ST" then
      match args with
      | [a0, a1] => do
        let rs ← reg_idx a0 ln
        let addr ← parse_imm a1 ln
        .ok ⟨str "ST", [rs, addr]⟩
      | _ => .error ⟨ln, "wrong operand count"⟩
    else if op = str "BEQ" ∨ op = str "BNE" then
      match args with
      | [a0, a1, a2] => do
        let rs1 ← reg_idx a0 ln
        let rs2 ← reg_idx a1 ln
        let tgt ← label_or_imm tbl a2 ln
        .ok ⟨op, [rs1, rs2, tgt]⟩
      | _ => .error ⟨ln, "wrong operand count"⟩
    else if op = str "JMP" then
      match args with
      | [a0] => do
        let tgt ← label_or_imm tbl a0 ln
        .ok ⟨str "JMP", [tgt]⟩
      | _ => .error ⟨ln, "wrong operand count"⟩
    else if op = str "IN" then
      match args with
      | [a0] => do
        let rd ← reg_idx a0 ln
        .ok ⟨str "IN", [rd]⟩
      | _ => .error ⟨ln, "wrong operand count"⟩
    else if op = str "OUT" then
      match args with
      | [a0] => do
        let rs ← reg_idx a0 ln
        .ok ⟨str "OUT", [rs]⟩
      | _ => .error ⟨ln, "wrong operand count"⟩
    else if op = str "HALT" then
      match args with
      | [] => .ok ⟨str "HALT", []⟩
      | _ => .error ⟨ln, "wrong operand count"⟩
    else .error ⟨ln, "unknown mnemonic"⟩

/-- Pass 2 of `assemble`: encode every non-blank, non-label line in
order, aborting on the first error. -/
def pass2Aux (tbl : List (List Char × Nat)) :
    List (Nat × List Char) → Except AsmError (List Instr)
  | [] => .ok []
  | (ln, line) :: rest =>
    if line = [] ∨ line.getLast? = some ':' then pass2Aux tbl rest
    else
      match encodeStmt tbl ln line with
      | .error e => .error e
      | .ok i =>
        match pass2Aux tbl rest with
        | .error e => .error e
        | .ok is => .ok (i :: is)

/-- `assemble`: two passes over the cleaned source; returns the program
and the label table, or the first error raised. -/
def assemble (src : List Char) :
    Except AsmError (List Instr × List (List Char × Nat)) := do
  let tbl ← pass1Aux (cleanedLines src) 0 []
  let prog ← pass2Aux tbl (cleanedLines src)
  .ok (prog, tbl)

/-- Assemble a source text and run it on a fresh CPU (the flow of
`run_file` / the self-tests), returning the emitted output lines. -/
def asmRunOuts (src : List Char) (stdin : List (List Char)) :
    Except String (List (List Char)) :=
  match assemble src with
  | .error _ => .error "assembly error"
  | .ok (prog, _) =>
    match run (initCPU prog) stdin with
    | .error e => .error e
    | .ok (_, _, _, outs) => .ok outs

/-! ## Specification-side definitions

The following definitions formalise phrases of the natural-language
specification so that the claims can be stated; they deliberately follow
the spec's words (not the code) and are compared with the code-derived
definitions above in the theorems below. -/

/-- Spec (§3, Machine State): the program counter references a valid
Program index. -/
def PCValid (c : CPU) : Prop := 0 ≤ c.pc ∧ c.pc < (c.prog.length : Int)

/-- Spec (§3, Instruction): an operand that is a register index lies in
`0..31`. -/
def RegOK (r : Int) : Prop := 0 ≤ r ∧ r < 32

/-- Spec (§3, Instruction): the operand tuple positions that the
execution engine interprets as register indices hold register indices
`0..31`.  Mnemonics not listed either have no register operand (`JMP`,
`HALT`) or fault on dispatch. -/
def WFInstr (i : Instr) : Prop :=
  ((i.op = str "ADD" ∨ i.op = str "SUB" ∨ i.op = str "AND" ∨
      i.op = str "OR" ∨ i.op = str "XOR") →
    ∀ rd rs1 rs2, i.args = [rd, rs1, rs2] → RegOK rd ∧ RegOK rs1 ∧ RegOK rs2) ∧
  (i.op = str "ADDI" →
    ∀ rd rs1 imm, i.args = [rd, rs1, imm] → RegOK rd ∧ RegOK rs1) ∧
  (i.op = str "LD" → ∀ rd a, i.args = [rd, a] → RegOK rd) ∧
  (i.op = str "ST" → ∀ rs a, i.args = [rs, a] → RegOK rs) ∧
  ((i.op = str "BEQ" ∨ i.op = str "BNE") →
    ∀ rs1 rs2 t, i.args = [rs1, rs2, t] → RegOK rs1 ∧ RegOK rs2) ∧
  ((i.op = str "IN" ∨ i.op = str "OUT") →
    ∀ r, i.args = [r] → RegOK r)

/-- A program all of whose instructions are well-formed in the sense of
the spec's Instruction data model. -/
def WFProg (p : List Instr) : Prop := ∀ i ∈ p, WFInstr i

/-- Spec (§3, Invariants): every register and memory cell holds a value
in `[0, 65535]` and register 0 is 0 (plus the structural sizes of the
machine state, which the code fixes at construction). -/
def StateOK (c : CPU) : Prop :=
  (∀ v ∈ c.reg, 0 ≤ v ∧ v < 65536) ∧
  c.reg.get? 0 = some 0 ∧
  (∀ v ∈ c.mem, 0 ≤ v ∧ v < 65536) ∧
  c.reg.length = NUM_REGS ∧
  c.mem.length = MEM_SIZE

/-- Spec (§4.2): for `LD`/`ST` the encoded address operand lies in
`[0, 65535]`. -/
def LdStAddrOK (i : Instr) : Prop :=
  (i.op = str "LD" ∨ i.op = str "ST") →
    ∃ r a, i.args = [r, a] ∧ 0 ≤ a ∧ a < 65536

/-- Spec (§4.3, `run()`): what `run` is specified to do, as a relation
between the inputs and the returned `(steps, state, stdin, output)`:
`n` steps were executed, each invoking `step()` with a `true`
continuation; the loop ended either because the ceiling was reached or
because one further `step()` signalled termination. -/
def RunSpec (c : CPU) (stdin : List (List Char)) (maxSteps : Nat) (n : Nat)
    (cf : CPU) (sf : List (List Char)) (outs : List (List Char)) : Prop :=
  n ≤ maxSteps ∧
  ∃ cm im om, iterTrue n c stdin = .ok (some (cm, im, om)) ∧
    ((n = maxSteps ∧ cf = cm ∧ sf = im ∧ outs = om) ∨
     (n < maxSteps ∧ ∃ o2, step cm im = .ok (false, cf, sf, o2) ∧ outs = om ++ o2))

/-- Spec (§4.1): the strict numeric-literal grammar — optional single
leading sign, optional `0x`/`0X` prefix selecting hexadecimal, then one
or more digits of the selected base, possibly surrounded by whitespace —
together with the denoted signed integer.  (Value of a hex digit
string.) -/
def hexFold (s : List Char) : Nat :=
  s.foldl (fun acc c => 16 * acc + ((hexVal? c).getD 0)) 0

/-- Spec (§4.1): the strict numeric-literal grammar as a partial parse
function: `some v` iff the token matches the grammar and denotes `v`. -/
def grammarParse (tok : List Char) : Option Int :=
  let s := pyStrip tok
  match s with
  | [] => none
  | c :: rest =>
    let neg := c = '-'
    let body := if c = '+' ∨ c = '-' then rest else c :: rest
    if body.take 2 = str "0x" ∨ body.take 2 = str "0X" then
      let ds := body.drop 2
      if ds ≠ [] ∧ ds.all (fun d => (hexVal? d).isSome) then
        some (if neg then -(hexFold ds : Int) else (hexFold ds : Int))
      else none
    else
      if body ≠ [] ∧ body.all isDig then
        some (if neg then -(decVal body : Int) else (decVal body : Int))
      else none

/-- Spec (§4.2, Pass 1): the label table described by the spec — each
label line binds its name to the count of non-blank, non-label lines seen
so far (`n` is that running count). -/
def specTableAux (n : Nat) : List (Nat × List Char) → List (List Char × Nat)
  | [] => []
  | (_, line) :: rest =>
    if line = [] then specTableAux n rest
    else if line.getLast? = some ':' then
      (pyStrip line.dropLast, n) :: specTableAux n rest
    else specTableAux (n + 1) rest

/-- Error-free scan of pass 1: `some (pc, tbl)` iff every line of the
list passes the pass-1 label checks, with the resulting counter and
table. -/
def pass1Fold : List (Nat × List Char) → Nat → List (List Char × Nat) →
    Option (Nat × List (List Char × Nat))
  | [], pc, tbl => some (pc, tbl)
  | (ln, line) :: rest, pc, tbl =>
    match pass1Line ln line pc tbl with
    | .error _ => none
    | .ok (pc1, tbl1) => pass1Fold rest pc1 tbl1

/-- Spec (§7, AssemblyError): the error is the pass-1 (label) error of
the first cleaned line whose label check fails, every earlier line having
passed pass 1, and it carries that line's number. -/
def FirstPass1Error (src : List Char) (e : AsmError) : Prop :=
  ∃ pre ln line post pc1 tbl1,
    cleanedLines src = pre ++ (ln, line) :: post ∧
    pass1Fold pre 0 [] = some (pc1, tbl1) ∧
    pass1Line ln line pc1 tbl1 = .error e ∧
    e.line = ln

/-- Spec (§7, AssemblyError): the error is the pass-2 (encoding) error of
the first statement line that fails to encode, every earlier statement
line having encoded successfully under the complete label table, and it
carries that line's number. -/
def FirstPass2Error (src : List Char) (tbl : List (List Char × Nat))
    (e : AsmError) : Prop :=
  ∃ pre ln line post is1,
    cleanedLines src = pre ++ (ln, line) :: post ∧
    pass2Aux tbl pre = .ok is1 ∧
    ¬(line = [] ∨ line.getLast? = some ':') ∧
    encodeStmt tbl ln line = .error e ∧
    e.line = ln

/-- Demonstration fixture for witnesses: a machine holding 65530 in `r2`
and 10 in `r3`, about to execute `ADD r1, r2, r3`. -/
def demoALUState : CPU :=
  { reg := ((List.replicate 32 0).set 2 65530).set 3 10
    mem := List.replicate 65536 0
    pc := 0
    prog := [⟨str "ADD", [1, 2, 3]⟩] }

/-- Demonstration fixture for witnesses: `ADDI r1, r0, 5` then `HALT`. -/
def demoRunProg : List Instr := [⟨str "ADDI", [1, 0, 5]⟩, ⟨str "HALT", []⟩]

/-- A lowercase hexadecimal digit character (`0-9a-f`). -/
def isLowerHex (c : Char) : Bool :=
  (48 ≤ c.toNat && c.toNat ≤ 57) || (97 ≤ c.toNat && c.toNat ≤ 102)

/-- Spec (§4.3, `OUT`): the exact shape
`<sign><5-digit zero-padded magnitude> (0x<4-digit lowercase hex>)`,
where sign and magnitude come from the two's-complement reinterpretation
of the raw value `v` and the hex digits denote the unsigned value. -/
def OutLineSpec (v : Int) (s : List Char) : Prop :=
  ∃ sign mag hx,
    s = [sign] ++ mag ++ str " (0x" ++ hx ++ str ")" ∧
    (if 0 ≤ to_signed16 v then sign = '+' else sign = '-') ∧
    mag.length = 5 ∧ (∀ c ∈ mag, isDig c) ∧
    (decVal mag : Nat) = (to_signed16 v).natAbs ∧
    hx.length = 4 ∧ (∀ c ∈ hx, isLowerHex c) ∧
    (hexFold hx : Int) = v

/-! ## Basic lemmas -/

theorem toNat_ofNat_small {n : Nat} (h : n < 55296) : (Char.ofNat n).toNat = n := by
  have hv : Char.isValidCharNat n := Or.inl h
  simp only [Char.ofNat, dif_pos hv, Char.ofNatAux, Char.toNat, UInt32.ofNat']
  simp [UInt32.toNat, BitVec.toNat_ofNat]

theorem u16_nonneg (x : Int) : 0 ≤ u16 x := Int.emod_nonneg x (by norm_num)

theorem u16_lt (x : Int) : u16 x < 65536 := Int.emod_lt_of_pos x (by norm_num)

/-- Inversion for a successful `Except` bind. -/
theorem exc_bind_ok {ε α β : Type} {m : Except ε α} {f : α → Except ε β}
    {b : β} (h : (m >>= f) = .ok b) : ∃ a, m = .ok a ∧ f a = .ok b := by
  cases m with
  | error e => simp [Bind.bind, Except.bind] at h
  | ok a => exact ⟨a, rfl, by simpa [Bind.bind, Except.bind] using h⟩

/-- Inversion for a failing `Except` bind. -/
theorem exc_bind_err {ε α β : Type} {m : Except ε α} {f : α → Except ε β}
    {e : ε} (h : (m >>= f) = .error e) :
    m = .error e ∨ ∃ a, m = .ok a ∧ f a = .error e := by
  cases m with
  | error e1 =>
    left
    have : (Except.error e1 : Except ε β) = .error e := h
    injection this with h1
    rw [h1]
  | ok a => exact .inr ⟨a, rfl, by simpa [Bind.bind, Except.bind] using h⟩

theorem pyGet_mem {l : List Int} {i v : Int} (h : pyGet l i = .ok v) : v ∈ l := by
  unfold pyGet at h
  split at h
  · split at h
    · injection h with h; subst h; exact List.get?_mem (by assumption)
    · cases h
  · cases h

theorem pyGet_eq_of_get? {l : List Int} {i w : Int} (h0 : 0 ≤ i)
    (hg : l.get? i.toNat = some w) : pyGet l i = .ok w := by
  have hj : pyIdx l.length i = i := by unfold pyIdx; omega
  unfold pyGet
  rw [hj, if_pos h0, hg]

theorem pySetL_eq {l : List Int} {i : Int} (v : Int) (h0 : 0 ≤ i)
    (hl : i.toNat < l.length) : pySetL l i v = .ok (l.set i.toNat v) := by
  have hj : pyIdx l.length i = i := by unfold pyIdx; omega
  unfold pySetL
  rw [hj, if_pos ⟨h0, hl⟩]

theorem pySetL_shape {l l' : List Int} {i v : Int} (h : pySetL l i v = .ok l') :
    l'.length = l.length ∧ ∀ w ∈ l', w ∈ l ∨ w = v := by
  unfold pySetL at h
  split at h
  · injection h with h; subst h
    exact ⟨List.length_set l _ _, fun w hw => List.mem_or_eq_of_mem_set hw⟩
  · cases h

theorem pySetL_get0 {l l' : List Int} {i v : Int} (hne : i ≠ 0) (h0 : 0 ≤ i)
    (h : pySetL l i v = .ok l') : l'.get? 0 = l.get? 0 := by
  have hj : pyIdx l.length i = i := by unfold pyIdx; omega
  unfold pySetL at h
  rw [hj] at h
  split at h
  · injection h with h; subst h
    simp only [List.get?_eq_getElem?]
    exact List.getElem?_set_ne (by omega)
  · cases h

theorem setReg_zero (c : CPU) (v : Int) : setReg c 0 v = .ok c := rfl

theorem setReg_preserve {c c1 : CPU} {rd v : Int} (hrd : 0 ≤ rd)
    (h : setReg c rd v = .ok c1) :
    c1.mem = c.mem ∧ c1.pc = c.pc ∧ c1.prog = c.prog ∧
    c1.reg.length = c.reg.length ∧ (∀ w ∈ c1.reg, w ∈ c.reg ∨ w = u16 v) ∧
    c1.reg.get? 0 = c.reg.get? 0 := by
  unfold setReg at h
  split at h
  · injection h with h; subst h
    exact ⟨rfl, rfl, rfl, rfl, fun w hw => .inl hw, rfl⟩
  · rename_i hne
    obtain ⟨r, hr, h⟩ := exc_bind_ok h
    injection h with h
    subst h
    obtain ⟨hlen, hmem⟩ := pySetL_shape hr
    exact ⟨rfl, rfl, rfl, hlen, hmem, pySetL_get0 hne hrd hr⟩

theorem setReg_StateOK {c c1 : CPU} {rd v : Int} (hS : StateOK c) (hrd : 0 ≤ rd)
    (h : setReg c rd v = .ok c1) :
    StateOK c1 ∧ c1.mem = c.mem ∧ c1.pc = c.pc ∧ c1.prog = c.prog := by
  obtain ⟨hreg, hreg0, hmem, hrl, hml⟩ := hS
  obtain ⟨hm, hp, hpr, hlen, hregs, hget0⟩ := setReg_preserve hrd h
  refine ⟨⟨fun w hw => ?_, ?_, ?_, ?_, ?_⟩, hm, hp, hpr⟩
  · rcases hregs w hw with hin | hval
    · exact hreg w hin
    · subst hval; exact ⟨u16_nonneg v, u16_lt v⟩
  · rw [hget0, hreg0]
  · rw [hm]; exact hmem
  · rw [hlen]; exact hrl
  · rw [hm]; exact hml

theorem mwrite_preserve {c c1 : CPU} {addr val : Int}
    (h : mwrite c addr val = .ok c1) :
    c1.reg = c.reg ∧ c1.pc = c.pc ∧ c1.prog = c.prog ∧
    c1.mem.length = c.mem.length ∧ ∀ w ∈ c1.mem, w ∈ c.mem ∨ w = u16 val := by
  unfold mwrite at h
  split at h
  · cases hg : c.mem.get? addr.toNat with
    | none => rw [hg] at h; exact Except.noConfusion h
    | some w =>
      rw [hg] at h
      dsimp only at h
      injection h with h
      subst h
      exact ⟨rfl, rfl, rfl, List.length_set c.mem _ _,
        fun w hw => List.mem_or_eq_of_mem_set hw⟩
  · exact Except.noConfusion h

theorem mwrite_StateOK {c c1 : CPU} {addr val : Int} (hS : StateOK c)
    (h : mwrite c addr val = .ok c1) :
    StateOK c1 ∧ c1.reg = c.reg ∧ c1.pc = c.pc ∧ c1.prog = c.prog := by
  obtain ⟨hreg, hreg0, hmem, hrl, hml⟩ := hS
  obtain ⟨hr, hp, hpr, hlen, hmems⟩ := mwrite_preserve h
  refine ⟨⟨fun w hw => ?_, ?_, fun w hw => ?_, ?_, ?_⟩, hr, hp, hpr⟩
  · rw [hr] at hw; exact hreg w hw
  · rw [hr, hreg0]
  · rcases hmems w hw with hin | hval
    · exact hmem w hin
    · subst hval; exact ⟨u16_nonneg val, u16_lt val⟩
  · rw [hr]; exact hrl
  · rw [hlen]; exact hml

theorem step_oob {c : CPU} {stdin : List (List Char)} (h : ¬ PCValid c) :
    step c stdin = .ok (false, c, stdin, []) := by
  unfold PCValid at h
  unfold step
  rw [if_pos (by omega)]

theorem step_fetch {c : CPU} {stdin : List (List Char)} {ins : Instr}
    (h0 : 0 ≤ c.pc) (hget : c.prog.get? c.pc.toNat = some ins) :
    step c stdin = stepExec { c with pc := c.pc + 1 } ins stdin := by
  have hlt : c.pc.toNat < c.prog.length := by
    by_contra hc
    rw [List.get?_eq_none.mpr (by omega)] at hget
    cases hget
  unfold step
  rw [if_neg (by omega), hget]

/-- Inversion for `Except.ok` of a step-result 4-tuple. -/
theorem ok4_inv {ε : Type} {b b' : Bool} {c c' : CPU} {s s' o o' : List (List Char)}
    (h : (Except.ok (b, c, s, o) : Except ε _) = .ok (b', c', s', o')) :
    b = b' ∧ c = c' ∧ s = s' ∧ o = o' := by
  injection h with h
  simpa using h

/-! Dispatch equations for `stepExec`, one per mnemonic. -/

theorem stepExec_ADD (c : CPU) (stdin : List (List Char)) (args : List Int) :
    stepExec c ⟨str "ADD", args⟩ stdin =
      (match args with
      | [rd, rs1, rs2] => do
        let x ← pyGet c.reg rs1
        let y ← pyGet c.reg rs2
        let c1 ← setReg c rd (x + y)
        .ok (true, c1, stdin, [])
      | _ => .error "bad operand tuple") := rfl

theorem stepExec_ADDI (c : CPU) (stdin : List (List Char)) (args : List Int) :
    stepExec c ⟨str "ADDI", args⟩ stdin =
      (match args with
      | [rd, rs1, imm] => do
        let x ← pyGet c.reg rs1
        let c1 ← setReg c rd (x + imm)
        .ok (true, c1, stdin, [])
      | _ => .error "bad operand tuple") := rfl

theorem stepExec_SUB (c : CPU) (stdin : List (List Char)) (args : List Int) :
    stepExec c ⟨str "SUB", args⟩ stdin =
      (match args with
      | [rd, rs1, rs2] => do
        let x ← pyGet c.reg rs1
        let y ← pyGet c.reg rs2
        let c1 ← setReg c rd (x - y)
        .ok (true, c1, stdin, [])
      | _ => .error "bad operand tuple") := rfl

theorem stepExec_AND (c : CPU) (stdin : List (List Char)) (args : List Int) :
    stepExec c ⟨str "AND", args⟩ stdin =
      (match args with
      | [rd, rs1, rs2] => do
        let x ← pyGet c.reg rs1
        let y ← pyGet c.reg rs2
        let c1 ← setReg c rd (Int.land x y)
        .ok (true, c1, stdin, [])
      | _ => .error "bad operand tuple") := rfl

theorem stepExec_OR (c : CPU) (stdin : List (List Char)) (args : List Int) :
    stepExec c ⟨str "OR", args⟩ stdin =
      (match args with
      | [rd, rs1, rs2] => do
        let x ← pyGet c.reg rs1
        let y ← pyGet c.reg rs2
        let c1 ← setReg c rd (Int.lor x y)
        .ok (true, c1, stdin, [])
      | _ => .error "bad operand tuple") := rfl

theorem stepExec_XOR (c : CPU) (stdin : List (List Char)) (args : List Int) :
    stepExec c ⟨str "XOR", args⟩ stdin =
      (match args with
      | [rd, rs1, rs2] => do
        let x ← pyGet c.reg rs1
        let y ← pyGet c.reg rs2
        let c1 ← setReg c rd (Int.xor x y)
        .ok (true, c1, stdin, [])
      | _ => .error "bad operand tuple") := rfl

theorem stepExec_LD (c : CPU) (stdin : List (List Char)) (args : List Int) :
    stepExec c ⟨str "LD", args⟩ stdin =
      (match args with
      | [rd, addr] => do
        let v ← mread c addr
        let c1 ← setReg c rd v
        .ok (true, c1, stdin, [])
      | _ => .error "bad operand tuple") := rfl

theorem stepExec_ST (c : CPU) (stdin : List (List Char)) (args : List Int) :
    stepExec c ⟨str "ST", args⟩ stdin =
      (match args with
      | [rs, addr] => do
        let v ← pyGet c.reg rs
        let c1 ← mwrite c addr v
        .ok (true, c1, stdin, [])
      | _ => .error "bad operand tuple") := rfl

theorem stepExec_BEQ (c : CPU) (stdin : List (List Char)) (args : List Int) :
    stepExec c ⟨str "BEQ", args⟩ stdin =
      (match args with
      | [rs1, rs2, target] => do
        let x ← pyGet c.reg rs1
        let y ← pyGet c.reg rs2
        if x = y then .ok (true, { c with pc := target }, stdin, [])
        else .ok (true, c, stdin, [])
      | _ => .error "bad operand tuple") := rfl

theorem stepExec_BNE (c : CPU) (stdin : List (List Char)) (args : List Int) :
    stepExec c ⟨str "BNE", args⟩ stdin =
      (match args with
      | [rs1, rs2, target] => do
        let x ← pyGet c.reg rs1
        let y ← pyGet c.reg rs2
        if x ≠ y then .ok (true, { c with pc := target }, stdin, [])
        else .ok (true, c, stdin, [])
      | _ => .error "bad operand tuple") := rfl

theorem stepExec_JMP (c : CPU) (stdin : List (List Char)) (args : List Int) :
    stepExec c ⟨str "JMP", args⟩ stdin =
      (match args with
      | [target] => .ok (true, { c with pc := target }, stdin, [])
      | _ => .error "bad operand tuple") := rfl

theorem stepExec_IN (c : CPU) (stdin : List (List Char)) (args : List Int) :
    stepExec c ⟨str "IN", args⟩ stdin =
      (match args with
      | [rd] =>
        match stdin with
        | [] => .error "IN: EOF on stdin"
        | line :: rest =>
          match parse_int_token (line ++ ['\n']) with
          | .error e => .error ("IN: invalid input — " ++ e)
          | .ok v =>
            if v < -32768 ∨ 65535 < v then
              .error "IN: value out of range [-32768, 65535]"
            else do
              let c1 ← setReg c rd v
              .ok (true, c1, rest, [])
      | _ => .error "bad operand tuple") := rfl

theorem stepExec_OUT (c : CPU) (stdin : List (List Char)) (args : List Int) :
    stepExec c ⟨str "OUT", args⟩ stdin =
      (match args with
      | [rs] => do
        let v ← pyGet c.reg rs
        .ok (true, c, stdin, [outLine v])
      | _ => .error "bad operand tuple") := rfl

theorem stepExec_HALT (c : CPU) (stdin : List (List Char)) (args : List Int) :
    stepExec c ⟨str "HALT", args⟩ stdin = .ok (false, c, stdin, []) := rfl

theorem stepExec_unknown (c : CPU) (stdin : List (List Char)) (ins : Instr)
    (h1 : ins.op ≠ str "ADD") (h2 : ins.op ≠ str "ADDI") (h3 : ins.op ≠ str "SUB")
    (h4 : ins.op ≠ str "AND") (h5 : ins.op ≠ str "OR") (h6 : ins.op ≠ str "XOR")
    (h7 : ins.op ≠ str "LD") (h8 : ins.op ≠ str "ST") (h9 : ins.op ≠ str "BEQ")
    (h10 : ins.op ≠ str "BNE") (h11 : ins.op ≠ str "JMP") (h12 : ins.op ≠ str "IN")
    (h13 : ins.op ≠ str "OUT") (h14 : ins.op ≠ str "HALT") :
    stepExec c ins stdin = .error "Unknown op" := by
  unfold stepExec
  rw [if_neg h1, if_neg h2, if_neg h3, if_neg h4, if_neg h5, if_neg h6, if_neg h7,
    if_neg h8, if_neg h9, if_neg h10, if_neg h11, if_neg h12, if_neg h13, if_neg h14]

theorem setReg_SP {c c1 : CPU} {rd v : Int} (hS : StateOK c) (hrd : 0 ≤ rd)
    (h : setReg c rd v = .ok c1) : StateOK c1 ∧ c1.prog = c.prog :=
  ⟨(setReg_StateOK hS hrd h).1, (setReg_StateOK hS hrd h).2.2.2⟩

theorem mwrite_SP {c c1 : CPU} {addr val : Int} (hS : StateOK c)
    (h : mwrite c addr val = .ok c1) : StateOK c1 ∧ c1.prog = c.prog :=
  ⟨(mwrite_StateOK hS h).1, (mwrite_StateOK hS h).2.2.2⟩

/-- Dispatch preserves the machine-state invariant: a completed
(non-faulting) `stepExec` on a well-formed instruction keeps every
register and memory cell in range and register 0 at 0; the program is
never modified. -/
theorem stepExec_StateOK {c : CPU} {ins : Instr} {stdin : List (List Char)}
    {b : Bool} {c' : CPU} {stdin' o : List (List Char)}
    (hwf : WFInstr ins) (hS : StateOK c)
    (h : stepExec c ins stdin = .ok (b, c', stdin', o)) :
    StateOK c' ∧ c'.prog = c.prog := by
  obtain ⟨op, args⟩ := ins
  obtain ⟨hALU, hADDI, hLD, hST, hBR, hInOut⟩ := hwf
  by_cases hop1 : op = str "ADD"
  · subst hop1
    rw [stepExec_ADD] at h
    split at h
    next rd rs1 rs2 =>
      obtain ⟨x, hx, h⟩ := exc_bind_ok h
      obtain ⟨y, hy, h⟩ := exc_bind_ok h
      obtain ⟨c1, hc1, h⟩ := exc_bind_ok h
      obtain ⟨hb, hc, hs, ho⟩ := ok4_inv h
      subst hc
      exact setReg_SP hS (hALU (.inl rfl) rd rs1 rs2 rfl).1.1 hc1
    all_goals exact Except.noConfusion h
  by_cases hop2 : op = str "ADDI"
  · subst hop2
    rw [stepExec_ADDI] at h
    split at h
    next rd rs1 imm =>
      obtain ⟨x, hx, h⟩ := exc_bind_ok h
      obtain ⟨c1, hc1, h⟩ := exc_bind_ok h
      obtain ⟨hb, hc, hs, ho⟩ := ok4_inv h
      subst hc
      exact setReg_SP hS (hADDI rfl rd rs1 imm rfl).1.1 hc1
    all_goals exact Except.noConfusion h
  by_cases hop3 : op = str "SUB"
  · subst hop3
    rw [stepExec_SUB] at h
    split at h
    next rd rs1 rs2 =>
      obtain ⟨x, hx, h⟩ := exc_bind_ok h
      obtain ⟨y, hy, h⟩ := exc_bind_ok h
      obtain ⟨c1, hc1, h⟩ := exc_bind_ok h
      obtain ⟨hb, hc, hs, ho⟩ := ok4_inv h
      subst hc
      exact setReg_SP hS (hALU (.inr (.inl rfl)) rd rs1 rs2 rfl).1.1 hc1
    all_goals exact Except.noConfusion h
  by_cases hop4 : op = str "AND"
  · subst hop4
    rw [stepExec_AND] at h
    split at h
    next rd rs1 rs2 =>
      obtain ⟨x, hx, h⟩ := exc_bind_ok h
      obtain ⟨y, hy, h⟩ := exc_bind_ok h
      obtain ⟨c1, hc1, h⟩ := exc_bind_ok h
      obtain ⟨hb, hc, hs, ho⟩ := ok4_inv h
      subst hc
      exact setReg_SP hS
        (hALU (.inr (.inr (.inl rfl))) rd rs1 rs2 rfl).1.1 hc1
    all_goals exact Except.noConfusion h
  by_cases hop5 : op = str "OR"
  · subst hop5
    rw [stepExec_OR] at h
    split at h
    next rd rs1 rs2 =>
      obtain ⟨x, hx, h⟩ := exc_bind_ok h
      obtain ⟨y, hy, h⟩ := exc_bind_ok h
      obtain ⟨c1, hc1, h⟩ := exc_bind_ok h
      obtain ⟨hb, hc, hs, ho⟩ := ok4_inv h
      subst hc
      exact setReg_SP hS
        (hALU (.inr (.inr (.inr (.inl rfl)))) rd rs1 rs2 rfl).1.1 hc1
    all_goals exact Except.noConfusion h
  by_cases hop6 : op = str "XOR"
  · subst hop6
    rw [stepExec_XOR] at h
    split at h
    next rd rs1 rs2 =>
      obtain ⟨x, hx, h⟩ := exc_bind_ok h
      obtain ⟨y, hy, h⟩ := exc_bind_ok h
      obtain ⟨c1, hc1, h⟩ := exc_bind_ok h
      obtain ⟨hb, hc, hs, ho⟩ := ok4_inv h
      subst hc
      exact setReg_SP hS
        (hALU (.inr (.inr (.inr (.inr rfl)))) rd rs1 rs2 rfl).1.1 hc1
    all_goals exact Except.noConfusion h
  by_cases hop7 : op = str "LD"
  · subst hop7
    rw [stepExec_LD] at h
    split at h
    next rd addr =>
      obtain ⟨v, hv, h⟩ := exc_bind_ok h
      obtain ⟨c1, hc1, h⟩ := exc_bind_ok h
      obtain ⟨hb, hc, hs, ho⟩ := ok4_inv h
      subst hc
      exact setReg_SP hS (hLD rfl rd addr rfl).1 hc1
    all_goals exact Except.noConfusion h
  by_cases hop8 : op = str "ST"
  · subst hop8
    rw [stepExec_ST] at h
    split at h
    next rs addr =>
      obtain ⟨v, hv, h⟩ := exc_bind_ok h
      obtain ⟨c1, hc1, h⟩ := exc_bind_ok h
      obtain ⟨hb, hc, hs, ho⟩ := ok4_inv h
      subst hc
      exact mwrite_SP hS hc1
    all_goals exact Except.noConfusion h
  by_cases hop9 : op = str "BEQ"
  · subst hop9
    rw [stepExec_BEQ] at h
    split at h
    next rs1 rs2 target =>
      obtain ⟨x, hx, h⟩ := exc_bind_ok h
      obtain ⟨y, hy, h⟩ := exc_bind_ok h
      split at h
      · obtain ⟨hb, hc, hs, ho⟩ := ok4_inv h
        subst hc
        exact ⟨hS, rfl⟩
      · obtain ⟨hb, hc, hs, ho⟩ := ok4_inv h
        subst hc
        exact ⟨hS, rfl⟩
    all_goals exact Except.noConfusion h
  by_cases hop10 : op = str "BNE"
  · subst hop10
    rw [stepExec_BNE] at h
    split at h
    next rs1 rs2 target =>
      obtain ⟨x, hx, h⟩ := exc_bind_ok h
      obtain ⟨y, hy, h⟩ := exc_bind_ok h
      split at h
      · obtain ⟨hb, hc, hs, ho⟩ := ok4_inv h
        subst hc
        exact ⟨hS, rfl⟩
      · obtain ⟨hb, hc, hs, ho⟩ := ok4_inv h
        subst hc
        exact ⟨hS, rfl⟩
    all_goals exact Except.noConfusion h
  by_cases hop11 : op = str "JMP"
  · subst hop11
    rw [stepExec_JMP] at h
    split at h
    next target =>
      obtain ⟨hb, hc, hs, ho⟩ := ok4_inv h
      subst hc
      exact ⟨hS, rfl⟩
    all_goals exact Except.noConfusion h
  by_cases hop12 : op = str "IN"
  · subst hop12
    rw [stepExec_IN] at h
    split at h
    next rd =>
      split at h
      next => exact Except.noConfusion h
      next line rest =>
        cases hp : parse_int_token (line ++ ['\n']) with
        | error e => rw [hp] at h; exact Except.noConfusion h
        | ok v =>
          rw [hp] at h
          dsimp only at h
          by_cases hr : v < -32768 ∨ 65535 < v
          · rw [if_pos hr] at h
            exact Except.noConfusion h
          · rw [if_neg hr] at h
            obtain ⟨c1, hc1, h⟩ := exc_bind_ok h
            obtain ⟨hb, hc, hs, ho⟩ := ok4_inv h
            subst hc
            exact setReg_SP hS (hInOut (.inl rfl) rd rfl).1 hc1
    all_goals exact Except.noConfusion h
  by_cases hop13 : op = str "OUT"
  · subst hop13
    rw [stepExec_OUT] at h
    split at h
    next rs =>
      obtain ⟨v, hv, h⟩ := exc_bind_ok h
      obtain ⟨hb, hc, hs, ho⟩ := ok4_inv h
      subst hc
      exact ⟨hS, rfl⟩
    all_goals exact Except.noConfusion h
  by_cases hop14 : op = str "HALT"
  · subst hop14
    rw [stepExec_HALT] at h
    obtain ⟨hb, hc, hs, ho⟩ := ok4_inv h
    subst hc
    exact ⟨hS, rfl⟩
  · rw [stepExec_unknown c stdin ⟨op, args⟩ hop1 hop2 hop3 hop4 hop5 hop6 hop7 hop8
      hop9 hop10 hop11 hop12 hop13 hop14] at h
    exact Except.noConfusion h

/-- One completed `step` preserves the machine-state invariant when the
program is well-formed, and never changes the program. -/
theorem step_StateOK {c : CPU} {stdin : List (List Char)} {b : Bool} {c' : CPU}
    {stdin' o : List (List Char)} (hwf : WFProg c.prog) (hS : StateOK c)
    (h : step c stdin = .ok (b, c', stdin', o)) :
    StateOK c' ∧ c'.prog = c.prog := by
  unfold step at h
  split at h
  · obtain ⟨hb, hc, hs, ho⟩ := ok4_inv h
    subst hc
    exact ⟨hS, rfl⟩
  · cases hg : c.prog.get? c.pc.toNat with
    | none => rw [hg] at h; exact Except.noConfusion h
    | some ins =>
      rw [hg] at h
      dsimp only at h
      exact @stepExec_StateOK { c with pc := c.pc + 1 } ins stdin b c' stdin' o
        (hwf ins (List.get?_mem hg)) hS h

/-- A chain of `n` completed steps preserves the machine-state
invariant. -/
theorem iterTrue_StateOK : ∀ {n : Nat} {c : CPU} {stdin : List (List Char)}
    {r : CPU × List (List Char) × List (List Char)},
    WFProg c.prog → StateOK c → iterTrue n c stdin = .ok (some r) →
    StateOK r.1 ∧ r.1.prog = c.prog := by
  intro n
  induction n with
  | zero =>
    intro c stdin r hwf hS h
    unfold iterTrue at h
    injection h with h
    injection h with h
    subst h
    exact ⟨hS, rfl⟩
  | succ n ih =>
    intro c stdin r hwf hS h
    unfold iterTrue at h
    cases hst : step c stdin with
    | error e => rw [hst] at h; exact Except.noConfusion h
    | ok q =>
      obtain ⟨b, c1, s1, o1⟩ := q
      rw [hst] at h
      cases b with
      | false =>
        dsimp only at h
        injection h with h
        exact Option.noConfusion h
      | true =>
        dsimp only at h
        obtain ⟨hS1, hp1⟩ := step_StateOK hwf hS hst
        cases hit : iterTrue n c1 s1 with
        | error e => rw [hit] at h; exact Except.noConfusion h
        | ok q2 =>
          rw [hit] at h
          cases q2 with
          | none =>
            dsimp only at h
            injection h with h
            exact Option.noConfusion h
          | some r2 =>
            obtain ⟨c2, s2, o2⟩ := r2
            dsimp only at h
            injection h with h
            injection h with h
            subst h
            have hres := ih (show WFProg c1.prog by rw [hp1]; exact hwf) hS1 hit
            exact ⟨hres.1, by rw [hres.2, hp1]⟩

/-- The freshly constructed machine state satisfies the invariant. -/
theorem initCPU_StateOK (prog : List Instr) : StateOK (initCPU prog) := by
  refine ⟨?_, ?_, ?_, ?_, ?_⟩
  · intro v hv
    rw [List.eq_of_mem_replicate hv]
    norm_num
  · rfl
  · intro v hv
    rw [List.eq_of_mem_replicate hv]
    norm_num
  · simp [initCPU]
  · simp [initCPU]

/-- The one-instruction program `ADDI r1, r0, 5` is well-formed. -/
theorem wfDemoADDI : WFProg [⟨str "ADDI", [1, 0, 5]⟩] := by
  intro i hi
  rw [List.mem_singleton] at hi
  subst hi
  refine ⟨?_, ?_, ?_, ?_, ?_, ?_⟩ <;> intro hop
  · rcases hop with h | h | h | h | h <;> exact absurd h (by decide)
  · intro rd rs1 imm heq
    injection heq with h1 heq
    injection heq with h2 heq
    subst h1
    subst h2
    exact ⟨by constructor <;> norm_num, by constructor <;> norm_num⟩
  · exact absurd hop (by decide)
  · exact absurd hop (by decide)
  · rcases hop with h | h <;> exact absurd h (by decide)
  · rcases hop with h | h <;> exact absurd h (by decide)

/-! ## The claims -/

/-- **C5.** For every sequence of non-faulting steps from the initial
machine state (running a program that is well-formed in the sense of the
spec's Instruction data model, i.e. register operands lie in `0..31` as
for every assembler output), every register and every memory cell always
holds a value in `[0, 65535]`, and register 0 always holds 0; moreover a
register-file write aimed at register 0 returns the state unchanged (an
observable no-op) regardless of operands. -/
theorem c5_register_memory_invariant (prog : List Instr)
    (stdin : List (List Char)) (n : Nat) (hwf : WFProg prog)
    (c : CPU) (s o : List (List Char))
    (h : iterTrue n (initCPU prog) stdin = .ok (some (c, s, o))) :
    ((∀ v ∈ c.reg, 0 ≤ v ∧ v < 65536) ∧ c.reg.get? 0 = some 0 ∧
      (∀ v ∈ c.mem, 0 ≤ v ∧ v < 65536)) ∧
    (∀ (d : CPU) (v : Int), setReg d 0 v = .ok d) := by
  have hS := (iterTrue_StateOK (show WFProg (initCPU prog).prog from hwf)
    (initCPU_StateOK prog) h).1
  exact ⟨⟨hS.1, hS.2.1, hS.2.2.1⟩, fun d v => setReg_zero d v⟩

/-- Witness for C5 at the concrete program `ADDI r1, r0, 5` after one
step. -/
theorem c5_register_memory_invariant_witness :
    ((∀ v ∈ ((List.replicate 32 0).set 1 5 : List Int), 0 ≤ v ∧ v < 65536) ∧
      ((List.replicate 32 0).set 1 5 : List Int).get? 0 = some 0 ∧
      (∀ v ∈ (List.replicate 65536 0 : List Int), 0 ≤ v ∧ v < 65536)) ∧
    (∀ (d : CPU) (v : Int), setReg d 0 v = .ok d) := by
  exact c5_register_memory_invariant [⟨str "ADDI", [1, 0, 5]⟩] [] 1 wfDemoADDI
    { reg := (List.replicate 32 0).set 1 5, mem := List.replicate 65536 0,
      pc := 1, prog := [⟨str "ADDI", [1, 0, 5]⟩] } [] [] rfl

/-- **C3 counterexample.**  Executing `ADD r0, r0, r0` as the only
instruction: `step` completes without fault and does not signal
termination (it returns `true`), yet the resulting program counter `1`
is not a valid index into the length-1 program.  This refutes the claim
that after a non-faulting `step` the pc is valid or `step` returned the
termination indication. -/
theorem c3_counterexample :
    step (initCPU [⟨str "ADD", [0, 0, 0]⟩]) [] =
      .ok (true, { initCPU [⟨str "ADD", [0, 0, 0]⟩] with pc := 1 }, [], []) ∧
    ¬ PCValid { initCPU [⟨str "ADD", [0, 0, 0]⟩] with pc := 1 } :=
  ⟨rfl, fun hv => by simpa [PCValid, initCPU] using hv⟩

/-- **C3 amended.**  After `step()` completes without fault, either it
signalled termination (returned `false`), or the program counter
references a valid Program index, or the *next* `step()` signals
termination (returns `false`) without any side effect on the state. -/
theorem c3_pc_valid_or_next_terminates {c : CPU} {stdin : List (List Char)}
    {b : Bool} {c' : CPU} {stdin' o : List (List Char)}
    (h : step c stdin = .ok (b, c', stdin', o)) :
    b = false ∨ PCValid c' ∨ step c' stdin' = .ok (false, c', stdin', []) := by
  by_cases hv : PCValid c'
  · exact .inr (.inl hv)
  · exact .inr (.inr (step_oob hv))

/-- Witness for the amended C3 at the concrete `ADD r0, r0, r0`
program. -/
theorem c3_pc_valid_or_next_terminates_witness :
    true = false ∨
    PCValid { initCPU [⟨str "ADD", [0, 0, 0]⟩] with pc := 1 } ∨
    step { initCPU [⟨str "ADD", [0, 0, 0]⟩] with pc := 1 } [] =
      .ok (false, { initCPU [⟨str "ADD", [0, 0, 0]⟩] with pc := 1 }, [], []) :=
  c3_pc_valid_or_next_terminates
    (show step (initCPU [⟨str "ADD", [0, 0, 0]⟩]) [] =
      .ok (true, { initCPU [⟨str "ADD", [0, 0, 0]⟩] with pc := 1 }, [], [])
      from rfl)

set_option maxRecDepth 40000 in
/-- **C9.** For every machine state whose memory has its constructed
size, every address in `[0, 65535]` and every value, `ST` then `LD` at
that address round-trips: the write succeeds and the subsequent read
returns the 16-bit-masked stored value.  Concretely, the program
`LI r1,0x003C; ST r1,0x0020; LD r2,0x0020; OUT r2` outputs
`+00060 (0x003c)`. -/
theorem c9_store_then_load (c : CPU) (addr val : Int)
    (hm : c.mem.length = MEM_SIZE) (h0 : 0 ≤ addr) (h1 : addr < 65536) :
    (∃ c', mwrite c addr val = .ok c' ∧ mread c' addr = .ok (u16 val)) ∧
    asmRunOuts (str "LI r1, 0x003C\nST r1, 0x0020\nLD r2, 0x0020\nOUT r2") [] =
      .ok [str "+00060 (0x003c)"] := by
  constructor
  · have hms : (MEM_SIZE : Int) = 65536 := by norm_num [MEM_SIZE]
    have haddr : addr.toNat < c.mem.length := by
      rw [hm]; unfold MEM_SIZE; omega
    refine ⟨{ c with mem := c.mem.set addr.toNat (u16 val) }, ?_, ?_⟩
    · unfold mwrite
      rw [if_pos ⟨h0, by omega⟩, List.get?_eq_some.mpr ⟨haddr, rfl⟩]
    · unfold mread
      rw [if_pos ⟨h0, by omega⟩]
      have hset : (c.mem.set addr.toNat (u16 val)).get? addr.toNat =
          some (u16 val) := by
        simp only [List.get?_eq_getElem?]
        exact List.getElem?_set_self (by simpa using haddr)
      rw [hset]
  · rfl

set_option maxRecDepth 40000 in
/-- Witness for C9 at a fresh machine, address 32 and value 60. -/
theorem c9_store_then_load_witness :
    (∃ c', mwrite (initCPU []) 32 60 = .ok c' ∧ mread c' 32 = .ok (u16 60)) ∧
    asmRunOuts (str "LI r1, 0x003C\nST r1, 0x0020\nLD r2, 0x0020\nOUT r2") [] =
      .ok [str "+00060 (0x003c)"] :=
  c9_store_then_load (initCPU []) 32 60 (by simp [initCPU])
    (by norm_num) (by norm_num)

theorem excBindOk {α β : Type} (a : α) (f : α → Except String β) :
    (Except.ok a >>= f) = f a := rfl

theorem setReg_eq {c : CPU} {rd : Int} (v : Int) (h0 : rd ≠ 0) (hrd : 0 ≤ rd)
    (hlen : rd.toNat < c.reg.length) :
    setReg c rd v = .ok { c with reg := c.reg.set rd.toNat (u16 v) } := by
  unfold setReg
  rw [if_neg h0, pySetL_eq (u16 v) hrd hlen]
  rfl

set_option maxRecDepth 40000 in
/-- **C6.** For every pair of register values and every immediate, the
result written to the destination register by `ADD`, `SUB` and `ADDI` is
the exact integer sum or difference reduced modulo 65536
(two's-complement wraparound under a 16-bit mask); and the program
`LI r1,65530; ADDI r1,r1,10; OUT r1` outputs `+00004 (0x0004)`. -/
theorem c6_alu_wraparound (c : CPU) (stdin : List (List Char))
    (rd a b x y : Int) (hrd0 : rd ≠ 0) (hrd : 0 ≤ rd)
    (hlen : rd.toNat < c.reg.length) (hpc : 0 ≤ c.pc) :
    (c.prog.get? c.pc.toNat = some ⟨str "ADD", [rd, a, b]⟩ →
      pyGet c.reg a = .ok x → pyGet c.reg b = .ok y →
      ∃ c', step c stdin = .ok (true, c', stdin, []) ∧
        pyGet c'.reg rd = .ok ((x + y) % 65536)) ∧
    (c.prog.get? c.pc.toNat = some ⟨str "SUB", [rd, a, b]⟩ →
      pyGet c.reg a = .ok x → pyGet c.reg b = .ok y →
      ∃ c', step c stdin = .ok (true, c', stdin, []) ∧
        pyGet c'.reg rd = .ok ((x - y) % 65536)) ∧
    (c.prog.get? c.pc.toNat = some ⟨str "ADDI", [rd, a, b]⟩ →
      pyGet c.reg a = .ok x →
      ∃ c', step c stdin = .ok (true, c', stdin, []) ∧
        pyGet c'.reg rd = .ok ((x + b) % 65536)) ∧
    asmRunOuts (str "LI r1, 65530\nADDI r1, r1, 10\nOUT r1") [] =
      .ok [str "+00004 (0x0004)"] := by
  have hgetset : ∀ (l : List Int) (w : Int), rd.toNat < l.length →
      (l.set rd.toNat w).get? rd.toNat = some w := by
    intro l w hl
    simp only [List.get?_eq_getElem?]
    exact List.getElem?_set_self (by simpa using hl)
  refine ⟨?_, ?_, ?_, rfl⟩
  · intro hget hx hy
    refine ⟨⟨c.reg.set rd.toNat (u16 (x + y)), c.mem, c.pc + 1, c.prog⟩, ?_, ?_⟩
    · rw [step_fetch hpc hget, stepExec_ADD]
      dsimp only
      rw [hx, excBindOk, hy, excBindOk,
        @setReg_eq ⟨c.reg, c.mem, c.pc + 1, c.prog⟩ rd (x + y) hrd0 hrd hlen,
        excBindOk]
    · apply pyGet_eq_of_get? hrd
      exact hgetset c.reg (u16 (x + y)) hlen
  · intro hget hx hy
    refine ⟨⟨c.reg.set rd.toNat (u16 (x - y)), c.mem, c.pc + 1, c.prog⟩, ?_, ?_⟩
    · rw [step_fetch hpc hget, stepExec_SUB]
      dsimp only
      rw [hx, excBindOk, hy, excBindOk,
        @setReg_eq ⟨c.reg, c.mem, c.pc + 1, c.prog⟩ rd (x - y) hrd0 hrd hlen,
        excBindOk]
    · apply pyGet_eq_of_get? hrd
      exact hgetset c.reg (u16 (x - y)) hlen
  · intro hget hx
    refine ⟨⟨c.reg.set rd.toNat (u16 (x + b)), c.mem, c.pc + 1, c.prog⟩, ?_, ?_⟩
    · rw [step_fetch hpc hget, stepExec_ADDI]
      dsimp only
      rw [hx, excBindOk,
        @setReg_eq ⟨c.reg, c.mem, c.pc + 1, c.prog⟩ rd (x + b) hrd0 hrd hlen,
        excBindOk]
    · apply pyGet_eq_of_get? hrd
      exact hgetset c.reg (u16 (x + b)) hlen

/-- Witness for C6: an `ADD r1, r2, r3` on register values 65530 and 10
wraps to 4, and the three implications instantiate at a concrete
machine. -/
theorem c6_alu_wraparound_witness :
    (demoALUState.prog.get? demoALUState.pc.toNat =
        some ⟨str "ADD", [1, 2, 3]⟩ →
      pyGet demoALUState.reg 2 = .ok 65530 →
      pyGet demoALUState.reg 3 = .ok 10 →
      ∃ c', step demoALUState [] = .ok (true, c', [], []) ∧
        pyGet c'.reg 1 = .ok ((65530 + 10) % 65536)) ∧
    (demoALUState.prog.get? demoALUState.pc.toNat =
        some ⟨str "SUB", [1, 2, 3]⟩ →
      pyGet demoALUState.reg 2 = .ok 65530 →
      pyGet demoALUState.reg 3 = .ok 10 →
      ∃ c', step demoALUState [] = .ok (true, c', [], []) ∧
        pyGet c'.reg 1 = .ok ((65530 - 10) % 65536)) ∧
    (demoALUState.prog.get? demoALUState.pc.toNat =
        some ⟨str "ADDI", [1, 2, 3]⟩ →
      pyGet demoALUState.reg 2 = .ok 65530 →
      ∃ c', step demoALUState [] = .ok (true, c', [], []) ∧
        pyGet c'.reg 1 = .ok ((65530 + 3) % 65536)) ∧
    asmRunOuts (str "LI r1, 65530\nADDI r1, r1, 10\nOUT r1") [] =
      .ok [str "+00004 (0x0004)"] :=
  c6_alu_wraparound demoALUState [] 1 2 3 65530 10
    (by decide) (by decide) (by decide) (by decide)

/-- The returned step count of the loop: `runLoop fuel c stdin steps
outs` that returns `(n, ...)` executed exactly `n - steps` further
`true`-steps, and stopped either by fuel exhaustion or on a step that
returned `false`. -/
theorem runLoop_spec : ∀ (fuel : Nat) (c : CPU) (stdin : List (List Char))
    (steps : Nat) (outs : List (List Char)) {n : Nat} {cf : CPU}
    {sf outsf : List (List Char)},
    runLoop fuel c stdin steps outs = .ok (n, cf, sf, outsf) →
    ∃ k, n = steps + k ∧ k ≤ fuel ∧
      ∃ cm im om, iterTrue k c stdin = .ok (some (cm, im, om)) ∧
        ((k = fuel ∧ cf = cm ∧ sf = im ∧ outsf = outs ++ om) ∨
         (k < fuel ∧ ∃ o2, step cm im = .ok (false, cf, sf, o2) ∧
            outsf = outs ++ om ++ o2)) := by
  intro fuel
  induction fuel with
  | zero =>
    intro c stdin steps outs n cf sf outsf h
    unfold runLoop at h
    injection h with h
    obtain ⟨h1, h2, h3, h4⟩ : steps = n ∧ c = cf ∧ stdin = sf ∧ outs = outsf := by
      simpa using h
    subst h1
    subst h2
    subst h3
    subst h4
    exact ⟨0, by omega, by omega, c, stdin, [],
      rfl, .inl ⟨rfl, rfl, rfl, by simp⟩⟩
  | succ fuel ih =>
    intro c stdin steps outs n cf sf outsf h
    unfold runLoop at h
    cases hst : step c stdin with
    | error e => rw [hst] at h; exact Except.noConfusion h
    | ok q =>
      obtain ⟨bq, c1, s1, o1⟩ := q
      rw [hst] at h
      cases bq with
      | true =>
        dsimp only at h
        obtain ⟨k, hk, hkf, cm, im, om, hit, hdisj⟩ := ih c1 s1 (steps + 1)
          (outs ++ o1) h
        refine ⟨k + 1, by omega, by omega, cm, im, o1 ++ om, ?_, ?_⟩
        · unfold iterTrue
          rw [hst]
          dsimp only
          rw [hit]
        · rcases hdisj with ⟨hkeq, hc, hs, ho⟩ | ⟨hlt, o2, hstep2, ho⟩
          · exact .inl ⟨by omega, hc, hs, by rw [ho, List.append_assoc]⟩
          · exact .inr ⟨by omega, o2, hstep2, by rw [ho]; simp [List.append_assoc]⟩
      | false =>
        dsimp only at h
        injection h with h
        obtain ⟨h1, h2, h3, h4⟩ : steps = n ∧ c1 = cf ∧ s1 = sf ∧
            outs ++ o1 = outsf := by simpa using h
        subst h1
        subst h2
        subst h3
        refine ⟨0, by omega, by omega, c, stdin, [], rfl,
          .inr ⟨by omega, o1, hst, ?_⟩⟩
        rw [← h4]
        simp

/-- **C1.** For every machine, every stdin and every step budget,
`run()` repeatedly invokes `step()` until a step signals termination
(`HALT` or pc outside the program, i.e. `step` returns `false`) or the
iteration ceiling is reached, and the value it returns is exactly the
number of (non-terminating) instructions executed during the run. -/
theorem c1_run_counts_steps (c : CPU) (stdin : List (List Char))
    (maxSteps : Nat) {n : Nat} {cf : CPU} {sf outs : List (List Char)}
    (h : runWith c stdin maxSteps = .ok (n, cf, sf, outs)) :
    RunSpec c stdin maxSteps n cf sf outs := by
  obtain ⟨k, hk, hkf, cm, im, om, hit, hdisj⟩ :=
    runLoop_spec maxSteps c stdin 0 [] h
  have hn : n = k := by omega
  subst hn
  refine ⟨hkf, cm, im, om, hit, ?_⟩
  rcases hdisj with ⟨hkeq, hc, hs, ho⟩ | ⟨hlt, o2, hstep2, ho⟩
  · exact .inl ⟨hkeq, hc, hs, by simpa using ho⟩
  · exact .inr ⟨hlt, o2, hstep2, by simpa using ho⟩

/-- Witness for C1: the program `ADDI r1, r0, 5; HALT` runs for exactly
one counted instruction under a budget of 10. -/
theorem c1_run_counts_steps_witness :
    RunSpec (initCPU demoRunProg) [] 10 1
      ⟨(List.replicate 32 0).set 1 5, List.replicate 65536 0, 2, demoRunProg⟩
      [] [] :=
  c1_run_counts_steps (initCPU demoRunProg) [] 10 rfl

/-! Correctness of the digit renderers used by `OUT`. -/

theorem dcc_append : ∀ (fuel n : Nat) (acc : List Char),
    decCharsCore fuel n acc = decCharsCore fuel n [] ++ acc := by
  intro fuel
  induction fuel with
  | zero => intro n acc; rfl
  | succ fuel ih =>
    intro n acc
    unfold decCharsCore
    split
    · rfl
    · rw [ih (n / 10) (decDigitChar (n % 10) :: acc),
        ih (n / 10) [decDigitChar (n % 10)], List.append_assoc]
      rfl

theorem hcc_append : ∀ (fuel n : Nat) (acc : List Char),
    hexCharsCore fuel n acc = hexCharsCore fuel n [] ++ acc := by
  intro fuel
  induction fuel with
  | zero => intro n acc; rfl
  | succ fuel ih =>
    intro n acc
    unfold hexCharsCore
    split
    · rfl
    · rw [ih (n / 16) (hexDigitChar (n % 16) :: acc),
        ih (n / 16) [hexDigitChar (n % 16)], List.append_assoc]
      rfl

theorem dcc_length : ∀ (fuel n d : Nat), n < 10 ^ d → 1 ≤ d →
    (decCharsCore fuel n []).length ≤ d := by
  intro fuel
  induction fuel with
  | zero => intro n d hd h1; simp [decCharsCore]
  | succ fuel ih =>
    intro n d hd h1
    unfold decCharsCore
    split
    · simpa using h1
    · rename_i hn
      rw [dcc_append fuel (n / 10) [decDigitChar (n % 10)]]
      have hd2 : 2 ≤ d := by
        by_contra hc
        interval_cases d
        omega
      have hdiv : n / 10 < 10 ^ (d - 1) := by
        rw [Nat.div_lt_iff_lt_mul (by norm_num)]
        calc n < 10 ^ d := hd
        _ = 10 ^ (d - 1) * 10 := by
          rw [← Nat.pow_succ]
          congr 1
          omega
      have := ih (n / 10) (d - 1) hdiv (by omega)
      simp only [List.length_append, List.length_singleton]
      omega

theorem hcc_length : ∀ (fuel n d : Nat), n < 16 ^ d → 1 ≤ d →
    (hexCharsCore fuel n []).length ≤ d := by
  intro fuel
  induction fuel with
  | zero => intro n d hd h1; simp [hexCharsCore]
  | succ fuel ih =>
    intro n d hd h1
    unfold hexCharsCore
    split
    · simpa using h1
    · rename_i hn
      rw [hcc_append fuel (n / 16) [hexDigitChar (n % 16)]]
      have hd2 : 2 ≤ d := by
        by_contra hc
        interval_cases d
        omega
      have hdiv : n / 16 < 16 ^ (d - 1) := by
        rw [Nat.div_lt_iff_lt_mul (by norm_num)]
        calc n < 16 ^ d := hd
        _ = 16 ^ (d - 1) * 16 := by
          rw [← Nat.pow_succ]
          congr 1
          omega
      have := ih (n / 16) (d - 1) hdiv (by omega)
      simp only [List.length_append, List.length_singleton]
      omega

theorem isDig_decDigitChar {d : Nat} (h : d < 10) : isDig (decDigitChar d) := by
  unfold isDig decDigitChar
  rw [toNat_ofNat_small (by omega)]
  simp
  omega

theorem isLowerHex_hexDigitChar {d : Nat} (h : d < 16) :
    isLowerHex (hexDigitChar d) := by
  unfold isLowerHex hexDigitChar
  split
  · rw [toNat_ofNat_small (by omega)]
    simp
    omega
  · rw [toNat_ofNat_small (by omega)]
    simp
    omega

theorem dcc_digits : ∀ (fuel n : Nat) (c : Char),
    c ∈ decCharsCore fuel n [] → isDig c := by
  intro fuel
  induction fuel with
  | zero => intro n c hc; simp [decCharsCore] at hc
  | succ fuel ih =>
    intro n c hc
    unfold decCharsCore at hc
    split at hc
    · rename_i hn
      rw [List.mem_singleton] at hc
      subst hc
      exact isDig_decDigitChar hn
    · rw [dcc_append fuel (n / 10) [decDigitChar (n % 10)],
        List.mem_append] at hc
      rcases hc with hc | hc
      · exact ih (n / 10) c hc
      · rw [List.mem_singleton] at hc
        subst hc
        exact isDig_decDigitChar (Nat.mod_lt n (by norm_num))


theorem hcc_digits : ∀ (fuel n : Nat) (c : Char),
    c ∈ hexCharsCore fuel n [] → isLowerHex c := by
  intro fuel
  induction fuel with
  | zero => intro n c hc; simp [hexCharsCore] at hc
  | succ fuel ih =>
    intro n c hc
    unfold hexCharsCore at hc
    split at hc
    · rename_i hn
      rw [List.mem_singleton] at hc
      subst hc
      exact isLowerHex_hexDigitChar hn
    · rw [hcc_append fuel (n / 16) [hexDigitChar (n % 16)],
        List.mem_append] at hc
      rcases hc with hc | hc
      · exact ih (n / 16) c hc
      · rw [List.mem_singleton] at hc
        subst hc
        exact isLowerHex_hexDigitChar (Nat.mod_lt n (by norm_num))

theorem decVal_append_singleton (xs : List Char) (c : Char) :
    decVal (xs ++ [c]) = 10 * decVal xs + (c.toNat - 48) := by
  unfold decVal
  rw [List.foldl_append]
  rfl

theorem hexFold_append_singleton (xs : List Char) (c : Char) :
    hexFold (xs ++ [c]) = 16 * hexFold xs + (hexVal? c).getD 0 := by
  unfold hexFold
  rw [List.foldl_append]
  rfl

theorem toNat_decDigitChar {d : Nat} (h : d < 10) :
    (decDigitChar d).toNat = 48 + d := by
  unfold decDigitChar
  exact toNat_ofNat_small (by omega)

theorem hexVal_hexDigitChar {d : Nat} (h : d < 16) :
    hexVal? (hexDigitChar d) = some d := by
  unfold hexVal? hexDigitChar
  split
  · rw [toNat_ofNat_small (by omega)]
    rw [if_pos (by omega)]
    congr 1
    omega
  · rw [toNat_ofNat_small (by omega)]
    rw [if_neg (by omega), if_pos (by omega)]
    congr 1
    omega

theorem dcc_val : ∀ (fuel n : Nat), n < 10 ^ fuel →
    decVal (decCharsCore fuel n []) = n := by
  intro fuel
  induction fuel with
  | zero =>
    intro n hn
    interval_cases n
    rfl
  | succ fuel ih =>
    intro n hn
    unfold decCharsCore
    split
    · rename_i h10
      show decVal ([] ++ [decDigitChar n]) = n
      rw [decVal_append_singleton, toNat_decDigitChar h10]
      show 10 * 0 + (48 + n - 48) = n
      omega
    · rename_i h10
      rw [dcc_append fuel (n / 10) [decDigitChar (n % 10)],
        decVal_append_singleton,
        toNat_decDigitChar (Nat.mod_lt n (by norm_num))]
      have hdiv : n / 10 < 10 ^ fuel := by
        rw [Nat.div_lt_iff_lt_mul (by norm_num)]
        calc n < 10 ^ (fuel + 1) := hn
        _ = 10 ^ fuel * 10 := by rw [Nat.pow_succ]
      rw [ih (n / 10) hdiv]
      omega

theorem hcc_val : ∀ (fuel n : Nat), n < 16 ^ fuel →
    hexFold (hexCharsCore fuel n []) = n := by
  intro fuel
  induction fuel with
  | zero =>
    intro n hn
    interval_cases n
    rfl
  | succ fuel ih =>
    intro n hn
    unfold hexCharsCore
    split
    · rename_i h16
      show hexFold ([] ++ [hexDigitChar n]) = n
      rw [hexFold_append_singleton, hexVal_hexDigitChar h16]
      show 16 * 0 + n = n
      omega
    · rename_i h16
      rw [hcc_append fuel (n / 16) [hexDigitChar (n % 16)],
        hexFold_append_singleton,
        hexVal_hexDigitChar (Nat.mod_lt n (by norm_num))]
      have hdiv : n / 16 < 16 ^ fuel := by
        rw [Nat.div_lt_iff_lt_mul (by norm_num)]
        calc n < 16 ^ (fuel + 1) := hn
        _ = 16 ^ fuel * 16 := by rw [Nat.pow_succ]
      rw [ih (n / 16) hdiv]
      simp only [Option.getD_some]
      omega

theorem zfill_length {w : Nat} {s : List Char} (h : s.length ≤ w) :
    (zfill w s).length = w := by
  unfold zfill
  rw [List.length_append, List.length_replicate]
  omega

theorem mem_zfill {w : Nat} {s : List Char} {c : Char} (h : c ∈ zfill w s) :
    c = '0' ∨ c ∈ s := by
  unfold zfill at h
  rw [List.mem_append] at h
  rcases h with h | h
  · exact .inl (List.eq_of_mem_replicate h)
  · exact .inr h

theorem decVal_zeros : ∀ (k : Nat) (s : List Char),
    decVal (List.replicate k '0' ++ s) = decVal s := by
  intro k
  induction k with
  | zero => intro s; rfl
  | succ k ih =>
    intro s
    show decVal (('0' :: List.replicate k '0') ++ s) = decVal s
    rw [List.cons_append]
    show decVal (List.replicate k '0' ++ s) = decVal s
    exact ih s

theorem hexFold_zeros : ∀ (k : Nat) (s : List Char),
    hexFold (List.replicate k '0' ++ s) = hexFold s := by
  intro k
  induction k with
  | zero => intro s; rfl
  | succ k ih =>
    intro s
    show hexFold (('0' :: List.replicate k '0') ++ s) = hexFold s
    rw [List.cons_append]
    show hexFold (List.replicate k '0' ++ s) = hexFold s
    exact ih s

theorem decVal_zfill (w : Nat) (s : List Char) : decVal (zfill w s) = decVal s :=
  decVal_zeros _ s

theorem hexFold_zfill (w : Nat) (s : List Char) :
    hexFold (zfill w s) = hexFold s :=
  hexFold_zeros _ s

theorem to_signed16_eq {v : Int} (h0 : 0 ≤ v) (h : v < 65536) :
    to_signed16 v = if v < 32768 then v else v - 65536 := by
  unfold to_signed16
  rw [Int.emod_eq_of_lt h0 h]

theorem to_signed16_natAbs_le {v : Int} (h0 : 0 ≤ v) (h : v < 65536) :
    (to_signed16 v).natAbs ≤ 32768 := by
  rw [to_signed16_eq h0 h]
  split <;> omega

theorem decChars_props {k : Nat} (h : k < 100000) :
    (zfill 5 (decChars k)).length = 5 ∧
    (∀ c ∈ zfill 5 (decChars k), isDig c) ∧
    decVal (zfill 5 (decChars k)) = k := by
  have hlen : (decChars k).length ≤ 5 :=
    dcc_length (k + 1) k 5 (by omega) (by norm_num)
  have hfuel : k < 10 ^ (k + 1) := by
    calc k < 10 ^ k := Nat.lt_pow_self (by norm_num) k
    _ ≤ 10 ^ (k + 1) := Nat.pow_le_pow_right (by norm_num) (Nat.le_succ k)
  refine ⟨zfill_length hlen, ?_, ?_⟩
  · intro c hc
    rcases mem_zfill hc with hc | hc
    · subst hc; decide
    · exact dcc_digits (k + 1) k c hc
  · rw [decVal_zfill]
    exact dcc_val (k + 1) k hfuel

theorem hexChars_props {k : Nat} (h : k < 65536) :
    (zfill 4 (hexChars k)).length = 4 ∧
    (∀ c ∈ zfill 4 (hexChars k), isLowerHex c) ∧
    hexFold (zfill 4 (hexChars k)) = k := by
  have hlen : (hexChars k).length ≤ 4 :=
    hcc_length (k + 1) k 4 (by omega) (by norm_num)
  have hfuel : k < 16 ^ (k + 1) := by
    calc k < 16 ^ k := Nat.lt_pow_self (by norm_num) k
    _ ≤ 16 ^ (k + 1) := Nat.pow_le_pow_right (by norm_num) (Nat.le_succ k)
  refine ⟨zfill_length hlen, ?_, ?_⟩
  · intro c hc
    rcases mem_zfill hc with hc | hc
    · subst hc; decide
    · exact hcc_digits (k + 1) k c hc
  · rw [hexFold_zfill]
    exact hcc_val (k + 1) k hfuel

/-- The rendered `OUT` line has its specified shape. -/
theorem outLine_spec {v : Int} (hv0 : 0 ≤ v) (hv : v < 65536) :
    OutLineSpec v (outLine v) := by
  have hk5 : (to_signed16 v).natAbs ≤ 32768 := to_signed16_natAbs_le hv0 hv
  have hna : v.natAbs < 65536 := by omega
  obtain ⟨hd1, hd2, hd3⟩ := decChars_props (k := (to_signed16 v).natAbs)
    (by omega)
  obtain ⟨hh1, hh2, hh3⟩ := hexChars_props hna
  refine ⟨if 0 ≤ to_signed16 v then '+' else '-',
    zfill 5 (decChars (to_signed16 v).natAbs),
    zfill 4 (hexChars v.natAbs), ?_, ?_, hd1, hd2, hd3, hh1, hh2, ?_⟩
  · unfold outLine fmt05d fmt04x
    dsimp only
    rw [if_neg (by omega : ¬ v < 0)]
    by_cases hs : 0 ≤ to_signed16 v
    · rw [if_pos hs, if_pos hs]
    · rw [if_neg hs, if_neg hs]
  · by_cases hs : 0 ≤ to_signed16 v
    · rw [if_pos hs, if_pos hs]
    · rw [if_neg hs, if_neg hs]
  · rw [hh3]
    exact Int.natAbs_of_nonneg hv0

/-- **C7.** For every 16-bit register value, executing `OUT rs` emits
exactly one line of the form
`<sign><5-digit zero-padded magnitude> (0x<4-digit lowercase hex>)`,
where sign and magnitude come from the two's-complement
reinterpretation of the raw value; unsigned `0xFFFE` renders
`-00002 (0xfffe)`. -/
theorem c7_out_format (c : CPU) (stdin : List (List Char)) (rs v : Int)
    (hv0 : 0 ≤ v) (hv : v < 65536) (hpc : 0 ≤ c.pc)
    (hget : c.prog.get? c.pc.toNat = some ⟨str "OUT", [rs]⟩)
    (hx : pyGet c.reg rs = .ok v) :
    step c stdin =
      .ok (true, ⟨c.reg, c.mem, c.pc + 1, c.prog⟩, stdin, [outLine v]) ∧
    OutLineSpec v (outLine v) ∧
    outLine 65534 = str "-00002 (0xfffe)" := by
  refine ⟨?_, outLine_spec hv0 hv, rfl⟩
  rw [step_fetch hpc hget, stepExec_OUT]
  dsimp only
  rw [hx, excBindOk]

/-- Witness for C7 at a machine with `0xFFFE` in `r2`, executing
`OUT r2`. -/
theorem c7_out_format_witness :
    step ⟨(List.replicate 32 0).set 2 65534, List.replicate 65536 0, 0,
        [⟨str "OUT", [2]⟩]⟩ [] =
      .ok (true, ⟨(List.replicate 32 0).set 2 65534, List.replicate 65536 0,
        0 + 1, [⟨str "OUT", [2]⟩]⟩, [], [outLine 65534]) ∧
    OutLineSpec 65534 (outLine 65534) ∧
    outLine 65534 = str "-00002 (0xfffe)" :=
  c7_out_format ⟨(List.replicate 32 0).set 2 65534, List.replicate 65536 0, 0,
    [⟨str "OUT", [2]⟩]⟩ [] 2 65534 (by decide) (by decide) (by decide) rfl rfl

/-! Character-class lemmas for the numeric-grammar claim. -/

theorem isPySpace_eq_false {c : Char} (h : 33 ≤ c.toNat) : isPySpace c = false := by
  cases hsp : isPySpace c
  · rfl
  · exfalso
    unfold isPySpace at hsp
    simp only [Bool.or_eq_true, decide_eq_true_eq] at hsp
    rcases hsp with ((((h1 | h1) | h1) | h1) | h1) | h1 <;>
      (subst h1; exact absurd h (by decide))

theorem pyStrip_eq_self {l : List Char} (h : ∀ c ∈ l, isPySpace c = false) :
    pyStrip l = l := by
  unfold pyStrip
  have h1 : l.dropWhile isPySpace = l := by
    cases l with
    | nil => rfl
    | cons c t =>
      rw [List.dropWhile_cons, h c (List.mem_cons_self c t)]
      simp
  rw [h1]
  have h2 : l.reverse.dropWhile isPySpace = l.reverse := by
    cases hr : l.reverse with
    | nil => rfl
    | cons c t =>
      have hc : c ∈ l := by
        rw [← List.mem_reverse, hr]
        exact List.mem_cons_self c t
      rw [List.dropWhile_cons, h c hc]
      simp
  rw [h2, List.reverse_reverse]

theorem hexVal?_isSome_toNat {c : Char} (h : (hexVal? c).isSome) :
    (48 ≤ c.toNat ∧ c.toNat ≤ 57) ∨ (97 ≤ c.toNat ∧ c.toNat ≤ 102) ∨
    (65 ≤ c.toNat ∧ c.toNat ≤ 70) := by
  unfold hexVal? at h
  split at h
  · left; assumption
  · split at h
    · right; left; assumption
    · split at h
      · right; right; assumption
      · simp at h

theorem isDig_toNat {c : Char} (h : isDig c) : 48 ≤ c.toNat ∧ c.toNat ≤ 57 := by
  unfold isDig at h
  simp only [Bool.and_eq_true, decide_eq_true_eq] at h
  exact h

theorem isDig_hexSome {c : Char} (h : isDig c) : (hexVal? c).isSome := by
  obtain ⟨h1, h2⟩ := isDig_toNat h
  unfold hexVal?
  rw [if_pos ⟨h1, h2⟩]
  rfl

theorem hex_nonspace {c : Char} (h : (hexVal? c).isSome) :
    isPySpace c = false := by
  rcases hexVal?_isSome_toNat h with h1 | h1 | h1 <;>
    exact isPySpace_eq_false (by omega)

theorem pyToLower_of_dig {c : Char} (h : isDig c) : pyToLower c = c := by
  obtain ⟨h1, h2⟩ := isDig_toNat h
  unfold pyToLower
  rw [if_neg (by omega)]

theorem pyToLower_ne_x_of_hex {b : Char} (hb : (hexVal? b).isSome) :
    pyToLower b ≠ 'x' := by
  intro he
  unfold pyToLower at he
  rcases hexVal?_isSome_toNat hb with h1 | h1 | h1
  · rw [if_neg (by omega)] at he
    subst he
    exact absurd h1 (by decide)
  · rw [if_neg (by omega)] at he
    subst he
    exact absurd h1 (by decide)
  · rw [if_pos (by omega)] at he
    have := congrArg Char.toNat he
    rw [toNat_ofNat_small (by omega)] at this
    have hx : ('x').toNat = 120 := by decide
    omega

theorem map_take2_shape {l : List Char} {f : Char → Char} {a b : Char}
    (h : (l.map f).take 2 = [a, b]) :
    ∃ x y t, l = x :: y :: t ∧ f x = a ∧ f y = b := by
  match l with
  | [] => exact absurd h (by simp)
  | [x] => exact absurd h (by simp)
  | x :: y :: t =>
    simp only [List.map_cons, List.take_succ_cons, List.take_zero] at h
    injection h with h1 h
    injection h with h2 h
    exact ⟨x, y, t, rfl, h1, h2⟩

theorem dec_no_pfx {body : List Char} (hall : ∀ c ∈ body, isDig c) :
    ((body.map pyToLower).take 2 = ['0', 'x']) → False := by
  intro h
  obtain ⟨x, y, t, hl, hx, hy⟩ := map_take2_shape h
  subst hl
  have hdy : isDig y := hall y (by simp)
  rw [pyToLower_of_dig hdy] at hy
  subst hy
  exact absurd hdy (by decide)

theorem hex_no_pfx {ds : List Char} (hall : ∀ c ∈ ds, (hexVal? c).isSome) :
    ((ds.map pyToLower).take 2 = ['0', 'x']) → False := by
  intro h
  obtain ⟨x, y, t, hl, hx, hy⟩ := map_take2_shape h
  subst hl
  exact pyToLower_ne_x_of_hex (hall y (by simp)) hy

theorem hexDigitsVal_all : ∀ (ds : List Char) (acc : Nat) (usOk seen : Bool),
    ds ≠ [] → (∀ c ∈ ds, (hexVal? c).isSome) →
    hexDigitsVal ds usOk acc seen =
      some (ds.foldl (fun a c => 16 * a + (hexVal? c).getD 0) acc) := by
  intro ds
  induction ds with
  | nil => intro acc usOk seen hne _; exact absurd rfl hne
  | cons d rest ih =>
    intro acc usOk seen _ hall
    have hd : (hexVal? d).isSome := hall d (List.mem_cons_self d rest)
    have hdu : ¬ d = '_' := by
      intro he
      subst he
      exact absurd hd (by decide)
    unfold hexDigitsVal
    rw [if_neg hdu]
    cases hv : hexVal? d with
    | none => rw [hv] at hd; exact absurd hd (by simp)
    | some k =>
      cases rest with
      | nil => simp [hexDigitsVal, hv]
      | cons d2 t =>
        dsimp only
        rw [ih (16 * acc + k) true true (by simp)
          (fun c hc => hall c (List.mem_cons_of_mem d hc))]
        simp [hv]

/-- `pyIntHex` on a non-empty string of plain hexadecimal digits returns
their value. -/
theorem pyIntHex_digits {ds : List Char} (hne : ds ≠ [])
    (hall : ∀ c ∈ ds, (hexVal? c).isSome) :
    pyIntHex ds = some (hexFold ds : Int) := by
  obtain ⟨d, rest, hds⟩ : ∃ d rest, ds = d :: rest := by
    cases ds with
    | nil => exact absurd rfl hne
    | cons d rest => exact ⟨d, rest, rfl⟩
  subst hds
  have hd : (hexVal? d).isSome := hall d (List.mem_cons_self d rest)
  have hstrip : pyStrip (d :: rest) = d :: rest :=
    pyStrip_eq_self (fun c hc => hex_nonspace (hall c hc))
  have hdsign : ¬ (d = '+' ∨ d = '-') := by
    rintro (h1 | h1) <;> (subst h1; exact absurd hd (by decide))
  unfold pyIntHex
  rw [hstrip]
  dsimp only
  rw [if_neg hdsign]
  dsimp only
  rw [if_neg (fun hp => hex_no_pfx hall hp)]
  dsimp only
  rw [hexDigitsVal_all (d :: rest) 0 false false (by simp) hall]
  rfl

theorem take2_shape {l : List Char} {a b : Char} (h : l.take 2 = [a, b]) :
    ∃ t, l = a :: b :: t := by
  match l with
  | [] => exact absurd h (by simp)
  | [x] =>
    simp only [List.take_succ_cons, List.take_nil] at h
    exact absurd h (by simp)
  | x :: y :: t =>
    simp only [List.take_succ_cons, List.take_zero] at h
    injection h with h1 h
    injection h with h2 h
    subst h1
    subst h2
    exact ⟨t, rfl⟩

/-- Shape of a grammar-hexadecimal body. -/
theorem hexBody_shape {body : List Char}
    (h : body.take 2 = str "0x" ∨ body.take 2 = str "0X") :
    ∃ x ds, body = '0' :: x :: ds ∧ (x = 'x' ∨ x = 'X') := by
  rcases h with h1 | h1
  · obtain ⟨t, ht⟩ := take2_shape (show body.take 2 = ['0', 'x'] from h1)
    exact ⟨'x', t, ht, .inl rfl⟩
  · obtain ⟨t, ht⟩ := take2_shape (show body.take 2 = ['0', 'X'] from h1)
    exact ⟨'X', t, ht, .inr rfl⟩

set_option maxHeartbeats 2000000 in
/-- **C4 amended.** Every token matching the spec's strict grammar
(optional single sign, optional `0x`/`0X` prefix, then one or more
digits of the selected base, surrounded only by outer whitespace) parses
to the corresponding signed integer, and a token that is empty up to
whitespace fails with a parse error.  (The failure set is *not* exactly
as claimed: see the counterexample.) -/
theorem c4_numeric_grammar :
    (∀ (tok : List Char) (v : Int),
      grammarParse tok = some v → parse_int_token tok = .ok v) ∧
    (∀ tok : List Char, pyStrip tok = [] →
      parse_int_token tok = .error "empty number") := by
  constructor
  · intro tok v hg
    unfold grammarParse at hg
    cases hs : pyStrip tok with
    | nil => rw [hs] at hg; exact Option.noConfusion hg
    | cons c rest =>
      rw [hs] at hg
      dsimp only at hg
      unfold parse_int_token
      dsimp only
      rw [hs, if_neg (List.cons_ne_nil c rest)]
      simp only [List.head?_cons, List.tail_cons]
      by_cases hsign : c = '+' ∨ c = '-'
      · rw [if_pos hsign] at hg
        have hsign' : some c = some '+' ∨ some c = some '-' := by
          rcases hsign with h1 | h1
          · exact .inl (by rw [h1])
          · exact .inr (by rw [h1])
        rw [if_pos hsign']
        split at hg
        · -- hexadecimal body
          rename_i hpfx
          split at hg
          · rename_i hds
            injection hg with hg
            obtain ⟨x, ds, hshape, hx⟩ := hexBody_shape hpfx
            subst hshape
            simp only [List.drop_succ_cons, List.drop_zero] at hds ⊢
            obtain ⟨hne, hall⟩ := hds
            have hall' : ∀ ch ∈ ds, (hexVal? ch).isSome := by
              intro ch hch
              simpa using List.all_eq_true.mp hall ch hch
            have hstrip : pyStrip ('0' :: x :: ds) = '0' :: x :: ds := by
              apply pyStrip_eq_self
              intro ch hch
              rcases List.mem_cons.mp hch with h1 | hch
              · subst h1; decide
              rcases List.mem_cons.mp hch with h1 | hch
              · rcases hx with h2 | h2 <;> (subst h2; subst h1; decide)
              · exact hex_nonspace (hall' ch hch)
            rw [hstrip]
            simp only [List.drop_succ_cons, List.drop_zero]
            have hb16 : (('0' :: x :: ds).map pyToLower).take 2 = ['0', 'x'] := by
              rcases hx with h2 | h2 <;> (subst h2; rfl)
            rw [if_pos hb16, if_neg hne, if_pos hb16,
              pyIntHex_digits hne hall']
            dsimp only
            simp only [List.drop_succ_cons, List.drop_zero] at hg
            by_cases hc : c = '-'
            · rw [if_pos (show some c = some '-' by rw [hc])]
              rw [if_pos hc] at hg
              rw [hg]
            · rw [if_neg (fun he => hc (Option.some.inj he))]
              rw [if_neg hc] at hg
              rw [hg]
          · exact Option.noConfusion hg
        · -- decimal body
          rename_i hpfx
          split at hg
          · rename_i hdec
            injection hg with hg
            obtain ⟨hne, hall⟩ := hdec
            have hall' : ∀ ch ∈ rest, isDig ch := fun ch hch =>
              List.all_eq_true.mp hall ch hch
            have hstrip : pyStrip rest = rest :=
              pyStrip_eq_self (fun ch hch => by
                have := isDig_toNat (hall' ch hch)
                exact isPySpace_eq_false (by omega))
            rw [hstrip]
            have hb16 : ¬ ((rest.map pyToLower).take 2 = ['0', 'x']) :=
              fun hp => dec_no_pfx hall' hp
            rw [if_neg hb16, if_neg hne, if_neg hb16, if_pos hall]
            by_cases hc : c = '-'
            · rw [if_pos (show some c = some '-' by rw [hc])]
              rw [if_pos hc] at hg
              rw [hg]
            · rw [if_neg (fun he => hc (Option.some.inj he))]
              rw [if_neg hc] at hg
              rw [hg]
          · exact Option.noConfusion hg
      · rw [if_neg hsign] at hg
        have hsign' : ¬ (some c = some '+' ∨ some c = some '-') := by
          rintro (h1 | h1)
          · exact hsign (.inl (Option.some.inj h1))
          · exact hsign (.inr (Option.some.inj h1))
        rw [if_neg hsign']
        have hcneg : ¬ c = '-' := fun h1 => hsign (.inr h1)
        split at hg
        · rename_i hpfx
          split at hg
          · rename_i hds
            injection hg with hg
            obtain ⟨x, ds, hshape, hx⟩ := hexBody_shape hpfx
            injection hshape with hc0 hrest
            subst hc0
            subst hrest
            simp only [List.drop_succ_cons, List.drop_zero] at hds ⊢
            obtain ⟨hne, hall⟩ := hds
            have hall' : ∀ ch ∈ ds, (hexVal? ch).isSome := by
              intro ch hch
              simpa using List.all_eq_true.mp hall ch hch
            have hb16 : (('0' :: x :: ds).map pyToLower).take 2 = ['0', 'x'] := by
              rcases hx with h2 | h2 <;> (subst h2; rfl)
            rw [if_pos hb16, if_neg hne, if_pos hb16,
              pyIntHex_digits hne hall']
            dsimp only
            rw [if_neg (fun he => hcneg (Option.some.inj he))]
            simp only [List.drop_succ_cons, List.drop_zero] at hg
            rw [hg]
          · exact Option.noConfusion hg
        · rename_i hpfx
          split at hg
          · rename_i hdec
            injection hg with hg
            obtain ⟨hne, hall⟩ := hdec
            have hb16 : ¬ (((c :: rest).map pyToLower).take 2 = ['0', 'x']) :=
              fun hp => dec_no_pfx (fun ch hch => List.all_eq_true.mp hall ch hch) hp
            rw [if_neg hb16, if_neg hne, if_neg hb16, if_pos hall]
            rw [if_neg (fun he => hcneg (Option.some.inj he))]
            rw [hg]
          · exact Option.noConfusion hg
  · intro tok h
    unfold parse_int_token
    dsimp only
    rw [h, if_pos rfl]

/-- Witness for the amended C4: `0x2a` parses to 42 through the grammar
direction, and a whitespace-only token yields the empty-number error. -/
theorem c4_numeric_grammar_witness :
    parse_int_token (str "0x2a") = .ok 42 ∧
    parse_int_token (str "  ") = .error "empty number" :=
  ⟨c4_numeric_grammar.1 (str "0x2a") 42 rfl,
   c4_numeric_grammar.2 (str "  ") rfl⟩

/-- **C4 counterexample.**  The token `"- 5"` contains a character (the
inner space) that is not a digit of the selected base, so under the
claim's "fails exactly when" characterization it would have to fail; the
parser strips whitespace again after removing the sign and accepts it,
returning `-5`. -/
theorem c4_counterexample :
    parse_int_token (str "- 5") = .ok (-5) ∧
    ' ' ∈ pyStrip (str "- 5") ∧ isDig ' ' = false :=
  ⟨rfl, by decide, by decide⟩

/-- Pass 1 computes exactly the spec's label table: on success, the
final table is the initial table extended with one binding per label
line, each bound to the running count of non-blank, non-label lines. -/
theorem pass1Aux_spec (ls : List (Nat × List Char)) :
    ∀ (pc : Nat) (tbl tbl' : List (List Char × Nat)),
    pass1Aux ls pc tbl = .ok tbl' → tbl' = tbl ++ specTableAux pc ls := by
  induction ls with
  | nil =>
    intro pc tbl tbl' h
    injection h with h
    simp [specTableAux, h]
  | cons p rest ih =>
    intro pc tbl tbl' h
    obtain ⟨ln, line⟩ := p
    unfold pass1Aux at h
    cases hl : pass1Line ln line pc tbl with
    | error e => rw [hl] at h; exact Except.noConfusion h
    | ok q =>
      obtain ⟨pc1, tbl1⟩ := q
      rw [hl] at h
      dsimp only at h
      unfold pass1Line at hl
      by_cases hb : line = []
      · rw [if_pos hb] at hl
        injection hl with hl
        injection hl with h1 h2
        subst h1; subst h2
        unfold specTableAux
        rw [if_pos hb]
        exact ih pc tbl tbl' h
      · rw [if_neg hb] at hl
        by_cases hc : line.getLast? = some ':'
        · rw [if_pos hc] at hl
          dsimp only at hl
          split at hl
          · exact Except.noConfusion hl
          · split at hl
            · exact Except.noConfusion hl
            · injection hl with hl
              injection hl with h1 h2
              subst h1; subst h2
              unfold specTableAux
              rw [if_neg hb, if_pos hc]
              rw [ih pc (tbl ++ [(pyStrip line.dropLast, pc)]) tbl' h]
              simp
        · rw [if_neg hc] at hl
          injection hl with hl
          injection hl with h1 h2
          subst h1; subst h2
          unfold specTableAux
          rw [if_neg hb, if_neg hc]
          exact ih (pc + 1) tbl tbl' h

/-- **C8.** For every source text accepted by the assembler, the label
table equals the spec's table: each label line binds its name to the
count of non-blank, non-label lines seen so far (the index of the next
instruction to be emitted); and every target token bound in that table
resolves, via `label_or_imm`, to its bound instruction index — pass 2
runs under the complete table, so this covers labels declared later than
their use, as the concrete forward-reference program
`JMP end; HALT; end:; HALT` shows. -/
theorem c8_labels (src : List Char) (prog : List Instr)
    (tbl : List (List Char × Nat)) (h : assemble src = .ok (prog, tbl)) :
    tbl = specTableAux 0 (cleanedLines src) ∧
    (∀ (tok : List Char) (ln idx : Nat), tbl.lookup tok = some idx →
      label_or_imm tbl tok ln = .ok ((idx : Nat) : Int)) ∧
    assemble (str "JMP end\nHALT\nend:\nHALT") =
      .ok ([⟨str "JMP", [2]⟩, ⟨str "HALT", []⟩, ⟨str "HALT", []⟩],
        [(str "end", 2)]) := by
  refine ⟨?_, ?_, rfl⟩
  · unfold assemble at h
    obtain ⟨tbl0, h1, h2⟩ := exc_bind_ok h
    obtain ⟨is0, h3, h4⟩ := exc_bind_ok h2
    injection h4 with h4
    injection h4 with h5 h6
    subst h6
    simpa using pass1Aux_spec (cleanedLines src) 0 [] tbl0 h1
  · intro tok ln idx hlk
    unfold label_or_imm
    rw [hlk]

set_option maxRecDepth 40000 in
/-- Witness for C8 at the forward-reference program
`JMP end; HALT; end:; HALT`. -/
theorem c8_labels_witness :
    [(str "end", 2)] =
      specTableAux 0 (cleanedLines (str "JMP end\nHALT\nend:\nHALT")) ∧
    (∀ (tok : List Char) (ln idx : Nat),
      ([(str "end", 2)] : List (List Char × Nat)).lookup tok = some idx →
      label_or_imm [(str "end", 2)] tok ln = .ok ((idx : Nat) : Int)) ∧
    assemble (str "JMP end\nHALT\nend:\nHALT") =
      .ok ([⟨str "JMP", [2]⟩, ⟨str "HALT", []⟩, ⟨str "HALT", []⟩],
        [(str "end", 2)]) :=
  c8_labels (str "JMP end\nHALT\nend:\nHALT")
    [⟨str "JMP", [2]⟩, ⟨str "HALT", []⟩, ⟨str "HALT", []⟩]
    [(str "end", 2)] rfl

/-- Register index 0 satisfies the spec's register-operand range. -/
theorem regOK_zero : RegOK 0 := ⟨le_refl 0, by norm_num⟩

/-- A successful `reg_idx` yields an index in `0..31`. -/
theorem reg_idx_ok {tok : List Char} {ln : Nat} {r : Int}
    (h : reg_idx tok ln = .ok r) : RegOK r := by
  unfold reg_idx at h
  by_cases hr : is_reg tok
  · rw [if_pos hr] at h
    injection h with h
    subst h
    refine ⟨Int.natCast_nonneg _, ?_⟩
    unfold is_reg at hr
    split at hr
    · next rest heq =>
      simp only [Bool.and_eq_true, decide_eq_true_eq] at hr
      rw [heq]
      have := hr.2
      unfold NUM_REGS at this
      simp only [List.tail_cons]
      exact_mod_cast this
    · exact Bool.noConfusion hr
  · rw [if_neg hr] at h
    exact Except.noConfusion h

/-- A successful `parse_imm` yields a pre-masked value in
`[0, 65535]`. -/
theorem parse_imm_ok {tok : List Char} {ln : Nat} {v : Int}
    (h : parse_imm tok ln = .ok v) : 0 ≤ v ∧ v < 65536 := by
  unfold parse_imm at h
  split at h
  · exact Except.noConfusion h
  · split at h
    · exact Except.noConfusion h
    · injection h with h
      subst h
      exact ⟨u16_nonneg _, u16_lt _⟩

/-- `WFInstr` for an encoded three-register ALU instruction. -/
theorem wfInstr_ALU {op : List Char} {rd rs1 rs2 : Int}
    (hop : op = str "ADD" ∨ op = str "SUB" ∨ op = str "AND" ∨
      op = str "OR" ∨ op = str "XOR")
    (h1 : RegOK rd) (h2 : RegOK rs1) (h3 : RegOK rs2) :
    WFInstr ⟨op, [rd, rs1, rs2]⟩ := by
  rcases hop with h | h | h | h | h <;>
    (subst h
     unfold WFInstr
     dsimp only
     exact ⟨fun _ a b c heq => by
         injection heq with e1 heq; injection heq with e2 heq
         injection heq with e3 _
         subst e1; subst e2; subst e3; exact ⟨h1, h2, h3⟩,
       fun hx => absurd hx (by decide), fun hx => absurd hx (by decide),
       fun hx => absurd hx (by decide), fun hx => absurd hx (by decide),
       fun hx => absurd hx (by decide)⟩)

/-- `WFInstr` for an encoded `ADDI` (also the `LI` expansion). -/
theorem wfInstr_ADDI {rd rs1 imm : Int} (h1 : RegOK rd) (h2 : RegOK rs1) :
    WFInstr ⟨str "ADDI", [rd, rs1, imm]⟩ := by
  unfold WFInstr
  dsimp only
  exact ⟨fun hx => absurd hx (by decide),
    fun _ a b c heq => by
      injection heq with e1 heq; injection heq with e2 heq
      injection heq with e3 _
      subst e1; subst e2; exact ⟨h1, h2⟩,
    fun hx => absurd hx (by decide), fun hx => absurd hx (by decide),
    fun hx => absurd hx (by decide), fun hx => absurd hx (by decide)⟩

/-- `WFInstr` for an encoded `LD`. -/
theorem wfInstr_LD {rd a : Int} (h1 : RegOK rd) :
    WFInstr ⟨str "LD", [rd, a]⟩ := by
  unfold WFInstr
  dsimp only
  exact ⟨fun hx => absurd hx (by decide), fun hx => absurd hx (by decide),
    fun _ b c heq => by
      injection heq with e1 heq
      subst e1; exact h1,
    fun hx => absurd hx (by decide), fun hx => absurd hx (by decide),
    fun hx => absurd hx (by decide)⟩

/-- `WFInstr` for an encoded `ST`. -/
theorem wfInstr_ST {rs a : Int} (h1 : RegOK rs) :
    WFInstr ⟨str "ST", [rs, a]⟩ := by
  unfold WFInstr
  dsimp only
  exact ⟨fun hx => absurd hx (by decide), fun hx => absurd hx (by decide),
    fun hx => absurd hx (by decide),
    fun _ b c heq => by
      injection heq with e1 heq
      subst e1; exact h1,
    fun hx => absurd hx (by decide), fun hx => absurd hx (by decide)⟩

/-- `WFInstr` for an encoded branch (`BEQ`/`BNE`). -/
theorem wfInstr_Br {op : List Char} {rs1 rs2 t : Int}
    (hop : op = str "BEQ" ∨ op = str "BNE")
    (h1 : RegOK rs1) (h2 : RegOK rs2) : WFInstr ⟨op, [rs1, rs2, t]⟩ := by
  rcases hop with h | h <;>
    (subst h
     unfold WFInstr
     dsimp only
     exact ⟨fun hx => absurd hx (by decide), fun hx => absurd hx (by decide),
       fun hx => absurd hx (by decide), fun hx => absurd hx (by decide),
       fun _ a b c heq => by
         injection heq with e1 heq; injection heq with e2 hrest
         injection hrest with e3 _
         subst e1; subst e2; exact ⟨h1, h2⟩,
       fun hx => absurd hx (by decide)⟩)

/-- `WFInstr` for an encoded `JMP`. -/
theorem wfInstr_JMP {t : Int} : WFInstr ⟨str "JMP", [t]⟩ := by
  unfold WFInstr
  dsimp only
  exact ⟨fun hx => absurd hx (by decide), fun hx => absurd hx (by decide),
    fun hx => absurd hx (by decide), fun hx => absurd hx (by decide),
    fun hx => absurd hx (by decide), fun hx => absurd hx (by decide)⟩

/-- `WFInstr` for an encoded `IN`/`OUT`. -/
theorem wfInstr_IO {op : List Char} {r : Int}
    (hop : op = str "IN" ∨ op = str "OUT") (h1 : RegOK r) :
    WFInstr ⟨op, [r]⟩ := by
  rcases hop with h | h <;>
    (subst h
     unfold WFInstr
     dsimp only
     exact ⟨fun hx => absurd hx (by decide), fun hx => absurd hx (by decide),
       fun hx => absurd hx (by decide), fun hx => absurd hx (by decide),
       fun hx => absurd hx (by decide),
       fun _ a heq => by injection heq with e1 _; subst e1; exact h1⟩)

/-- `WFInstr` for an encoded `HALT`. -/
theorem wfInstr_HALT : WFInstr ⟨str "HALT", []⟩ := by
  unfold WFInstr
  dsimp only
  exact ⟨fun hx => absurd hx (by decide), fun hx => absurd hx (by decide),
    fun hx => absurd hx (by decide), fun hx => absurd hx (by decide),
    fun hx => absurd hx (by decide), fun hx => absurd hx (by decide)⟩

/-- `LdStAddrOK` is vacuous for a mnemonic other than `LD`/`ST`. -/
theorem ldstOK_other {op : List Char} {args : List Int}
    (h1 : op ≠ str "LD") (h2 : op ≠ str "ST") : LdStAddrOK ⟨op, args⟩ :=
  fun hop => by rcases hop with hx | hx
                exact absurd hx h1
                exact absurd hx h2

/-- Every instruction `encodeStmt` emits is well-formed: its register
operands are in `0..31` and, for `LD`/`ST`, its address operand is in
`[0, 65535]` (immediates are range-checked and masked by
`parse_imm`). -/
theorem encodeStmt_wf {tbl : List (List Char × Nat)} {ln : Nat}
    {line : List Char} {i : Instr} (h : encodeStmt tbl ln line = .ok i) :
    LdStAddrOK i ∧ WFInstr i := by
  unfold encodeStmt at h
  cases htk : toks_for line with
  | nil => rw [htk] at h; exact Except.noConfusion h
  | cons tok0 args =>
    rw [htk] at h
    dsimp only at h
    by_cases h1 : tok0.map pyToUpper = str "LI"
    · rw [if_pos h1] at h
      match args, h with
      | [], h => exact Except.noConfusion h
      | [_], h => exact Except.noConfusion h
      | _ :: _ :: _ :: _, h => exact Except.noConfusion h
      | [a0, a1], h =>
        obtain ⟨rd, hrd, h⟩ := exc_bind_ok h
        obtain ⟨imm, himm, h⟩ := exc_bind_ok h
        injection h with h
        subst h
        exact ⟨ldstOK_other (by decide) (by decide),
          wfInstr_ADDI (reg_idx_ok hrd) regOK_zero⟩
    rw [if_neg h1] at h
    by_cases h2 : tok0.map pyToUpper = str "MOV"
    · rw [if_pos h2] at h
      match args, h with
      | [], h => exact Except.noConfusion h
      | [_], h => exact Except.noConfusion h
      | _ :: _ :: _ :: _, h => exact Except.noConfusion h
      | [a0, a1], h =>
        obtain ⟨rd, hrd, h⟩ := exc_bind_ok h
        obtain ⟨rs, hrs, h⟩ := exc_bind_ok h
        injection h with h
        subst h
        exact ⟨ldstOK_other (by decide) (by decide),
          wfInstr_ALU (.inl rfl) (reg_idx_ok hrd) (reg_idx_ok hrs) regOK_zero⟩
    rw [if_neg h2] at h
    by_cases h3 : tok0.map pyToUpper = str "ADD" ∨ tok0.map pyToUpper = str "SUB" ∨
        tok0.map pyToUpper = str "AND" ∨ tok0.map pyToUpper = str "OR" ∨
        tok0.map pyToUpper = str "XOR"
    · rw [if_pos h3] at h
      match args, h with
      | [], h => exact Except.noConfusion h
      | [_], h => exact Except.noConfusion h
      | [_, _], h => exact Except.noConfusion h
      | _ :: _ :: _ :: _ :: _, h => exact Except.noConfusion h
      | [a0, a1, a2], h =>
        obtain ⟨rd, hrd, h⟩ := exc_bind_ok h
        obtain ⟨rs1, hrs1, h⟩ := exc_bind_ok h
        obtain ⟨rs2, hrs2, h⟩ := exc_bind_ok h
        injection h with h
        subst h
        refine ⟨?_, wfInstr_ALU h3 (reg_idx_ok hrd) (reg_idx_ok hrs1)
          (reg_idx_ok hrs2)⟩
        intro hop
        dsimp only at hop
        rcases h3 with h3 | h3 | h3 | h3 | h3 <;> rw [h3] at hop <;>
          rcases hop with hx | hx <;> exact absurd hx (by decide)
    rw [if_neg h3] at h
    by_cases h4 : tok0.map pyToUpper = str "ADDI"
    · rw [if_pos h4] at h
      match args, h with
      | [], h => exact Except.noConfusion h
      | [_], h => exact Except.noConfusion h
      | [_, _], h => exact Except.noConfusion h
      | _ :: _ :: _ :: _ :: _, h => exact Except.noConfusion h
      | [a0, a1, a2], h =>
        obtain ⟨rd, hrd, h⟩ := exc_bind_ok h
        obtain ⟨rs1, hrs1, h⟩ := exc_bind_ok h
        obtain ⟨imm, himm, h⟩ := exc_bind_ok h
        injection h with h
        subst h
        exact ⟨ldstOK_other (by decide) (by decide),
          wfInstr_ADDI (reg_idx_ok hrd) (reg_idx_ok hrs1)⟩
    rw [if_neg h4] at h
    by_cases h5 : tok0.map pyToUpper = str "LD"
    · rw [if_pos h5] at h
      match args, h with
      | [], h => exact Except.noConfusion h
      | [_], h => exact Except.noConfusion h
      | _ :: _ :: _ :: _, h => exact Except.noConfusion h
      | [a0, a1], h =>
        obtain ⟨rd, hrd, h⟩ := exc_bind_ok h
        obtain ⟨addr, haddr, h⟩ := exc_bind_ok h
        injection h with h
        subst h
        refine ⟨fun _ => ⟨rd, addr, rfl, (parse_imm_ok haddr).1,
          (parse_imm_ok haddr).2⟩, wfInstr_LD (reg_idx_ok hrd)⟩
    rw [if_neg h5] at h
    by_cases h6 : tok0.map pyToUpper = str "ST"
    · rw [if_pos h6] at h
      match args, h with
      | [], h => exact Except.noConfusion h
      | [_], h => exact Except.noConfusion h
      | _ :: _ :: _ :: _, h => exact Except.noConfusion h
      | [a0, a1], h =>
        obtain ⟨rs, hrs, h⟩ := exc_bind_ok h
        obtain ⟨addr, haddr, h⟩ := exc_bind_ok h
        injection h with h
        subst h
        refine ⟨fun _ => ⟨rs, addr, rfl, (parse_imm_ok haddr).1,
          (parse_imm_ok haddr).2⟩, wfInstr_ST (reg_idx_ok hrs)⟩
    rw [if_neg h6] at h
    by_cases h7 : tok0.map pyToUpper = str "BEQ" ∨ tok0.map pyToUpper = str "BNE"
    · rw [if_pos h7] at h
      match args, h with
      | [], h => exact Except.noConfusion h
      | [_], h => exact Except.noConfusion h
      | [_, _], h => exact Except.noConfusion h
      | _ :: _ :: _ :: _ :: _, h => exact Except.noConfusion h
      | [a0, a1, a2], h =>
        obtain ⟨rs1, hrs1, h⟩ := exc_bind_ok h
        obtain ⟨rs2, hrs2, h⟩ := exc_bind_ok h
        obtain ⟨tgt, htgt, h⟩ := exc_bind_ok h
        injection h with h
        subst h
        refine ⟨?_, wfInstr_Br h7 (reg_idx_ok hrs1) (reg_idx_ok hrs2)⟩
        intro hop
        dsimp only at hop
        rcases h7 with h7 | h7 <;> rw [h7] at hop <;>
          rcases hop with hx | hx <;> exact absurd hx (by decide)
    rw [if_neg h7] at h
    by_cases h8 : tok0.map pyToUpper = str "JMP"
    · rw [if_pos h8] at h
      match args, h with
      | [], h => exact Except.noConfusion h
      | _ :: _ :: _, h => exact Except.noConfusion h
      | [a0], h =>
        obtain ⟨tgt, htgt, h⟩ := exc_bind_ok h
        injection h with h
        subst h
        exact ⟨ldstOK_other (by decide) (by decide), wfInstr_JMP⟩
    rw [if_neg h8] at h
    by_cases h9 : tok0.map pyToUpper = str "IN"
    · rw [if_pos h9] at h
      match args, h with
      | [], h => exact Except.noConfusion h
      | _ :: _ :: _, h => exact Except.noConfusion h
      | [a0], h =>
        obtain ⟨rd, hrd, h⟩ := exc_bind_ok h
        injection h with h
        subst h
        exact ⟨ldstOK_other (by decide) (by decide),
          wfInstr_IO (.inl rfl) (reg_idx_ok hrd)⟩
    rw [if_neg h9] at h
    by_cases h10 : tok0.map pyToUpper = str "OUT"
    · rw [if_pos h10] at h
      match args, h with
      | [], h => exact Except.noConfusion h
      | _ :: _ :: _, h => exact Except.noConfusion h
      | [a0], h =>
        obtain ⟨rs, hrs, h⟩ := exc_bind_ok h
        injection h with h
        subst h
        exact ⟨ldstOK_other (by decide) (by decide),
          wfInstr_IO (.inr rfl) (reg_idx_ok hrs)⟩
    rw [if_neg h10] at h
    by_cases h11 : tok0.map pyToUpper = str "HALT"
    · rw [if_pos h11] at h
      match args, h with
      | _ :: _, h => exact Except.noConfusion h
      | [], h =>
        injection h with h
        subst h
        exact ⟨ldstOK_other (by decide) (by decide), wfInstr_HALT⟩
    rw [if_neg h11] at h
    exact Except.noConfusion h

/-- Every instruction pass 2 emits is well-formed in the sense of
`encodeStmt_wf`. -/
theorem pass2Aux_wf {tbl : List (List Char × Nat)} :
    ∀ (ls : List (Nat × List Char)) (is1 : List Instr),
    pass2Aux tbl ls = .ok is1 → ∀ i ∈ is1, LdStAddrOK i ∧ WFInstr i := by
  intro ls
  induction ls with
  | nil =>
    intro is1 h i hi
    injection h with h
    subst h
    exact absurd hi (List.not_mem_nil i)
  | cons p rest ih =>
    intro is1 h i hi
    obtain ⟨ln, line⟩ := p
    unfold pass2Aux at h
    by_cases hb : line = [] ∨ line.getLast? = some ':'
    · rw [if_pos hb] at h
      exact ih is1 h i hi
    · rw [if_neg hb] at h
      cases he : encodeStmt tbl ln line with
      | error e => rw [he] at h; exact Except.noConfusion h
      | ok i0 =>
        rw [he] at h
        dsimp only at h
        cases hr : pass2Aux tbl rest with
        | error e => rw [hr] at h; exact Except.noConfusion h
        | ok is0 =>
          rw [hr] at h
          dsimp only at h
          injection h with h
          subst h
          rcases List.mem_cons.mp hi with hi | hi
          · subst hi
            exact encodeStmt_wf he
          · exact ih is0 hr i hi

/-- An in-range address never takes the out-of-bounds fault branch of
`mread` when the memory has its constructed size. -/
theorem mread_ok (c : CPU) (a : Int) (hm : c.mem.length = MEM_SIZE)
    (h0 : 0 ≤ a) (h1 : a < 65536) : ∃ v, mread c a = .ok v := by
  unfold mread
  have hms : ((MEM_SIZE : Nat) : Int) = 65536 := by norm_num [MEM_SIZE]
  rw [if_pos ⟨h0, by omega⟩]
  have hlt : a.toNat < c.mem.length := by rw [hm]; unfold MEM_SIZE; omega
  cases hg : c.mem.get? a.toNat with
  | none => exact absurd hg (by rw [List.get?_eq_some.mpr ⟨hlt, rfl⟩]; exact fun hx => Option.noConfusion hx)
  | some w => exact ⟨w, rfl⟩

/-- An in-range address never takes the out-of-bounds fault branch of
`mwrite` when the memory has its constructed size. -/
theorem mwrite_ok (c : CPU) (a w : Int) (hm : c.mem.length = MEM_SIZE)
    (h0 : 0 ≤ a) (h1 : a < 65536) : ∃ c', mwrite c a w = .ok c' := by
  unfold mwrite
  have hms : ((MEM_SIZE : Nat) : Int) = 65536 := by norm_num [MEM_SIZE]
  rw [if_pos ⟨h0, by omega⟩]
  have hlt : a.toNat < c.mem.length := by rw [hm]; unfold MEM_SIZE; omega
  cases hg : c.mem.get? a.toNat with
  | none => exact absurd hg (by rw [List.get?_eq_some.mpr ⟨hlt, rfl⟩]; exact fun hx => Option.noConfusion hx)
  | some v =>
    exact ⟨{ c with mem := c.mem.set a.toNat (u16 w) }, rfl⟩

/-- **C10.** For every program produced by `assemble`, the address
operand of every `LD` and `ST` instruction lies in `[0, 65535]`
(immediates are range-checked and masked to 16 bits at assembly time by
`parse_imm`), so on any machine whose memory has its constructed size the
out-of-bounds `RuntimeFault` branches of `mread`/`mwrite` are unreachable
for those addresses. -/
theorem c10_ldst_addresses (src : List Char) (prog : List Instr)
    (tbl : List (List Char × Nat)) (h : assemble src = .ok (prog, tbl)) :
    (∀ i ∈ prog, LdStAddrOK i) ∧
    (∀ (c : CPU), c.mem.length = MEM_SIZE →
      ∀ i ∈ prog, ∀ r a, i.args = [r, a] →
        (i.op = str "LD" → ∃ v, mread c a = .ok v) ∧
        (i.op = str "ST" → ∀ w, ∃ c', mwrite c a w = .ok c')) := by
  unfold assemble at h
  obtain ⟨tbl0, hp1, h2⟩ := exc_bind_ok h
  obtain ⟨is0, hp2, h4⟩ := exc_bind_ok h2
  injection h4 with h4
  injection h4 with h5 h6
  subst h5; subst h6
  have hwf := pass2Aux_wf (cleanedLines src) is0 hp2
  refine ⟨fun i hi => (hwf i hi).1, ?_⟩
  intro c hm i hi r a hargs
  constructor
  · intro hop
    obtain ⟨r', a', heq, hb0, hb1⟩ := (hwf i hi).1 (.inl hop)
    rw [hargs] at heq
    injection heq with e1 heq
    injection heq with e2 _
    rw [← e2] at hb0 hb1
    exact mread_ok c a hm hb0 hb1
  · intro hop w
    obtain ⟨r', a', heq, hb0, hb1⟩ := (hwf i hi).1 (.inr hop)
    rw [hargs] at heq
    injection heq with e1 heq
    injection heq with e2 _
    rw [← e2] at hb0 hb1
    exact mwrite_ok c a w hm hb0 hb1

set_option maxRecDepth 40000 in
/-- Witness for C10 at the assembled `LI/ST/LD/OUT` program and a fresh
machine. -/
theorem c10_ldst_addresses_witness :
    (∃ v, mread (initCPU []) 32 = .ok v) ∧
    (∃ c', mwrite (initCPU []) 32 60 = .ok c') :=
  ⟨((c10_ldst_addresses
      (str "LI r1, 0x003C\nST r1, 0x0020\nLD r2, 0x0020\nOUT r2")
      [⟨str "ADDI", [1, 0, 60]⟩, ⟨str "ST", [1, 32]⟩, ⟨str "LD", [2, 32]⟩,
        ⟨str "OUT", [2]⟩] [] rfl).2 (initCPU []) (by simp [initCPU])
      ⟨str "LD", [2, 32]⟩ (by decide) 2 32 rfl).1 rfl,
   ((c10_ldst_addresses
      (str "LI r1, 0x003C\nST r1, 0x0020\nLD r2, 0x0020\nOUT r2")
      [⟨str "ADDI", [1, 0, 60]⟩, ⟨str "ST", [1, 32]⟩, ⟨str "LD", [2, 32]⟩,
        ⟨str "OUT", [2]⟩] [] rfl).2 (initCPU []) (by simp [initCPU])
      ⟨str "ST", [1, 32]⟩ (by decide) 1 32 rfl).2 rfl 60⟩

/-- Every `reg_idx` error carries the line number it was given. -/
theorem reg_idx_err {tok : List Char} {ln : Nat} {e : AsmError}
    (h : reg_idx tok ln = .error e) : e.line = ln := by
  unfold reg_idx at h
  split at h
  · exact Except.noConfusion h
  · injection h with h
    rw [← h]

/-- Every `parse_imm` error carries the line number it was given. -/
theorem parse_imm_err {tok : List Char} {ln : Nat} {e : AsmError}
    (h : parse_imm tok ln = .error e) : e.line = ln := by
  unfold parse_imm at h
  split at h
  · injection h with h; rw [← h]
  · split at h
    · injection h with h; rw [← h]
    · exact Except.noConfusion h

/-- Every `label_or_imm` error carries the line number it was given. -/
theorem label_or_imm_err {tbl : List (List Char × Nat)} {tok : List Char}
    {ln : Nat} {e : AsmError} (h : label_or_imm tbl tok ln = .error e) :
    e.line = ln := by
  unfold label_or_imm at h
  split at h
  · exact Except.noConfusion h
  · exact parse_imm_err h

/-- Every pass-1 (label) error carries the number of the offending
line. -/
theorem pass1Line_err_line {ln : Nat} {line : List Char} {pc : Nat}
    {tbl : List (List Char × Nat)} {e : AsmError}
    (h : pass1Line ln line pc tbl = .error e) : e.line = ln := by
  unfold pass1Line at h
  dsimp only at h
  split at h
  · exact Except.noConfusion h
  · split at h
    · split at h
      · injection h with h; rw [← h]
      · split at h
        · injection h with h; rw [← h]
        · exact Except.noConfusion h
    · exact Except.noConfusion h

/-- Every `encodeStmt` error carries the number of the offending
line. -/
theorem encodeStmt_err_line {tbl : List (List Char × Nat)} {ln : Nat}
    {line : List Char} {e : AsmError}
    (h : encodeStmt tbl ln line = .error e) : e.line = ln := by
  unfold encodeStmt at h
  cases htk : toks_for line with
  | nil => rw [htk] at h; injection h with h; rw [← h]
  | cons tok0 args =>
    rw [htk] at h
    dsimp only at h
    by_cases h1 : tok0.map pyToUpper = str "LI"
    · rw [if_pos h1] at h
      match args, h with
      | [], h => injection h with h; rw [← h]
      | [_], h => injection h with h; rw [← h]
      | _ :: _ :: _ :: _, h => injection h with h; rw [← h]
      | [a0, a1], h =>
        rcases exc_bind_err h with h | ⟨rd, hrd, h⟩
        · exact reg_idx_err h
        rcases exc_bind_err h with h | ⟨imm, himm, h⟩
        · exact parse_imm_err h
        exact Except.noConfusion h
    rw [if_neg h1] at h
    by_cases h2 : tok0.map pyToUpper = str "MOV"
    · rw [if_pos h2] at h
      match args, h with
      | [], h => injection h with h; rw [← h]
      | [_], h => injection h with h; rw [← h]
      | _ :: _ :: _ :: _, h => injection h with h; rw [← h]
      | [a0, a1], h =>
        rcases exc_bind_err h with h | ⟨rd, hrd, h⟩
        · exact reg_idx_err h
        rcases exc_bind_err h with h | ⟨rs, hrs, h⟩
        · exact reg_idx_err h
        exact Except.noConfusion h
    rw [if_neg h2] at h
    by_cases h3 : tok0.map pyToUpper = str "ADD" ∨ tok0.map pyToUpper = str "SUB" ∨
        tok0.map pyToUpper = str "AND" ∨ tok0.map pyToUpper = str "OR" ∨
        tok0.map pyToUpper = str "XOR"
    · rw [if_pos h3] at h
      match args, h with
      | [], h => injection h with h; rw [← h]
      | [_], h => injection h with h; rw [← h]
      | [_, _], h => injection h with h; rw [← h]
      | _ :: _ :: _ :: _ :: _, h => injection h with h; rw [← h]
      | [a0, a1, a2], h =>
        rcases exc_bind_err h with h | ⟨rd, hrd, h⟩
        · exact reg_idx_err h
        rcases exc_bind_err h with h | ⟨rs1, hrs1, h⟩
        · exact reg_idx_err h
        rcases exc_bind_err h with h | ⟨rs2, hrs2, h⟩
        · exact reg_idx_err h
        exact Except.noConfusion h
    rw [if_neg h3] at h
    by_cases h4 : tok0.map pyToUpper = str "ADDI"
    · rw [if_pos h4] at h
      match args, h with
      | [], h => injection h with h; rw [← h]
      | [_], h => injection h with h; rw [← h]
      | [_, _], h => injection h with h; rw [← h]
      | _ :: _ :: _ :: _ :: _, h => injection h with h; rw [← h]
      | [a0, a1, a2], h =>
        rcases exc_bind_err h with h | ⟨rd, hrd, h⟩
        · exact reg_idx_err h
        rcases exc_bind_err h with h | ⟨rs1, hrs1, h⟩
        · exact reg_idx_err h
        rcases exc_bind_err h with h | ⟨imm, himm, h⟩
        · exact parse_imm_err h
        exact Except.noConfusion h
    rw [if_neg h4] at h
    by_cases h5 : tok0.map pyToUpper = str "LD"
    · rw [if_pos h5] at h
      match args, h with
      | [], h => injection h with h; rw [← h]
      | [_], h => injection h with h; rw [← h]
      | _ :: _ :: _ :: _, h => injection h with h; rw [← h]
      | [a0, a1], h =>
        rcases exc_bind_err h with h | ⟨rd, hrd, h⟩
        · exact reg_idx_err h
        rcases exc_bind_err h with h | ⟨addr, haddr, h⟩
        · exact parse_imm_err h
        exact Except.noConfusion h
    rw [if_neg h5] at h
    by_cases h6 : tok0.map pyToUpper = str "ST"
    · rw [if_pos h6] at h
      match args, h with
      | [], h => injection h with h; rw [← h]
      | [_], h => injection h with h; rw [← h]
      | _ :: _ :: _ :: _, h => injection h with h; rw [← h]
      | [a0, a1], h =>
        rcases exc_bind_err h with h | ⟨rs, hrs, h⟩
        · exact reg_idx_err h
        rcases exc_bind_err h with h | ⟨addr, haddr, h⟩
        · exact parse_imm_err h
        exact Except.noConfusion h
    rw [if_neg h6] at h
    by_cases h7 : tok0.map pyToUpper = str "BEQ" ∨ tok0.map pyToUpper = str "BNE"
    · rw [if_pos h7] at h
      match args, h with
      | [], h => injection h with h; rw [← h]
      | [_], h => injection h with h; rw [← h]
      | [_, _], h => injection h with h; rw [← h]
      | _ :: _ :: _ :: _ :: _, h => injection h with h; rw [← h]
      | [a0, a1, a2], h =>
        rcases exc_bind_err h with h | ⟨rs1, hrs1, h⟩
        · exact reg_idx_err h
        rcases exc_bind_err h with h | ⟨rs2, hrs2, h⟩
        · exact reg_idx_err h
        rcases exc_bind_err h with h | ⟨tgt, htgt, h⟩
        · exact label_or_imm_err h
        exact Except.noConfusion h
    rw [if_neg h7] at h
    by_cases h8 : tok0.map pyToUpper = str "JMP"
    · rw [if_pos h8] at h
      match args, h with
      | [], h => injection h with h; rw [← h]
      | _ :: _ :: _, h => injection h with h; rw [← h]
      | [a0], h =>
        rcases exc_bind_err h with h | ⟨tgt, htgt, h⟩
        · exact label_or_imm_err h
        exact Except.noConfusion h
    rw [if_neg h8] at h
    by_cases h9 : tok0.map pyToUpper = str "IN"
    · rw [if_pos h9] at h
      match args, h with
      | [], h => injection h with h; rw [← h]
      | _ :: _ :: _, h => injection h with h; rw [← h]
      | [a0], h =>
        rcases exc_bind_err h with h | ⟨rd, hrd, h⟩
        · exact reg_idx_err h
        exact Except.noConfusion h
    rw [if_neg h9] at h
    by_cases h10 : tok0.map pyToUpper = str "OUT"
    · rw [if_pos h10] at h
      match args, h with
      | [], h => injection h with h; rw [← h]
      | _ :: _ :: _, h => injection h with h; rw [← h]
      | [a0], h =>
        rcases exc_bind_err h with h | ⟨rs, hrs, h⟩
        · exact reg_idx_err h
        exact Except.noConfusion h
    rw [if_neg h10] at h
    by_cases h11 : tok0.map pyToUpper = str "HALT"
    · rw [if_pos h11] at h
      match args, h with
      | _ :: _, h => injection h with h; rw [← h]
      | [], h => exact Except.noConfusion h
    rw [if_neg h11] at h
    injection h with h
    rw [← h]

/-- A pass-1 failure is the pass-1 error of the first line whose label
check fails, every earlier line having passed pass 1. -/
theorem pass1Aux_error_spec (ls : List (Nat × List Char)) :
    ∀ (pc : Nat) (tbl : List (List Char × Nat)) (e : AsmError),
    pass1Aux ls pc tbl = .error e →
    ∃ pre ln line post pc1 tbl1,
      ls = pre ++ (ln, line) :: post ∧
      pass1Fold pre pc tbl = some (pc1, tbl1) ∧
      pass1Line ln line pc1 tbl1 = .error e := by
  induction ls with
  | nil => intro pc tbl e h; exact Except.noConfusion h
  | cons p rest ih =>
    intro pc tbl e h
    obtain ⟨ln, line⟩ := p
    unfold pass1Aux at h
    cases hl : pass1Line ln line pc tbl with
    | error e1 =>
      rw [hl] at h
      dsimp only at h
      injection h with h
      subst h
      exact ⟨[], ln, line, rest, pc, tbl, rfl, rfl, hl⟩
    | ok q =>
      obtain ⟨pc1, tbl1⟩ := q
      rw [hl] at h
      dsimp only at h
      obtain ⟨pre, ln2, line2, post, pc2, tbl2, he1, he2, he3⟩ :=
        ih pc1 tbl1 e h
      refine ⟨(ln, line) :: pre, ln2, line2, post, pc2, tbl2,
        by rw [he1, List.cons_append], ?_, he3⟩
      unfold pass1Fold
      rw [hl]
      exact he2

/-- A pass-2 failure is the encoding error of the first statement line
that fails to encode, every earlier statement line having encoded
successfully under the given label table. -/
theorem pass2Aux_error_spec {tbl : List (List Char × Nat)} :
    ∀ (ls : List (Nat × List Char)) (e : AsmError),
    pass2Aux tbl ls = .error e →
    ∃ pre ln line post is1,
      ls = pre ++ (ln, line) :: post ∧
      pass2Aux tbl pre = .ok is1 ∧
      ¬(line = [] ∨ line.getLast? = some ':') ∧
      encodeStmt tbl ln line = .error e := by
  intro ls
  induction ls with
  | nil => intro e h; exact Except.noConfusion h
  | cons p rest ih =>
    intro e h
    obtain ⟨ln, line⟩ := p
    unfold pass2Aux at h
    by_cases hb : line = [] ∨ line.getLast? = some ':'
    · rw [if_pos hb] at h
      obtain ⟨pre, ln2, line2, post, is1, he1, he2, he3, he4⟩ := ih e h
      refine ⟨(ln, line) :: pre, ln2, line2, post, is1,
        by rw [he1, List.cons_append], ?_, he3, he4⟩
      unfold pass2Aux
      rw [if_pos hb]
      exact he2
    · rw [if_neg hb] at h
      cases hs : encodeStmt tbl ln line with
      | error e1 =>
        rw [hs] at h
        dsimp only at h
        injection h with h
        subst h
        exact ⟨[], ln, line, rest, [], rfl, rfl, hb, hs⟩
      | ok i =>
        rw [hs] at h
        dsimp only at h
        cases hr : pass2Aux tbl rest with
        | error e1 =>
          rw [hr] at h
          dsimp only at h
          injection h with h
          subst h
          obtain ⟨pre, ln2, line2, post, is1, he1, he2, he3, he4⟩ :=
            ih e1 hr
          refine ⟨(ln, line) :: pre, ln2, line2, post, i :: is1,
            by rw [he1, List.cons_append], ?_, he3, he4⟩
          unfold pass2Aux
          rw [if_neg hb, hs]
          dsimp only
          rw [he2]
        | ok is0 =>
          rw [hr] at h
          dsimp only at h
          exact Except.noConfusion h

/-- **C2 counterexample.** In the source `ADD r1` / `foo:` / `foo:` the
only malformed *statement* is on line 1 (`ADD r1` has the wrong operand
count — assembling that line alone is rejected with a line-1 error, as
the second equation shows), yet `assemble` reports the line-3
duplicate-label error: pass 1 checks every label of the whole file
before pass 2 encodes any statement, so the reported error is not the
one for the first malformed statement in source order. -/
theorem c2_counterexample :
    assemble (str "ADD r1\nfoo:\nfoo:") = .error ⟨3, "duplicate label"⟩ ∧
    assemble (str "ADD r1") = .error ⟨1, "wrong operand count"⟩ :=
  ⟨rfl, rfl⟩

/-- **C2 amended.** When `assemble` fails it produces no program or
label table at all (no partial output), and the error — which always
carries the number of the offending line — is the *first pass-1*
(label) error if any line fails pass 1, and otherwise the *first pass-2*
(encoding) error under the complete label table; it is not in general
the error of the first malformed statement in source order, since all
pass-1 label checks run before any statement is encoded. -/
theorem c2_first_error (src : List Char) (e : AsmError)
    (h : assemble src = .error e) :
    (∀ r, assemble src ≠ .ok r) ∧
    (FirstPass1Error src e ∨
      ∃ tbl, pass1Aux (cleanedLines src) 0 [] = .ok tbl ∧
        FirstPass2Error src tbl e) := by
  refine ⟨fun r hr => by rw [h] at hr; exact Except.noConfusion hr, ?_⟩
  unfold assemble at h
  rcases exc_bind_err h with h1 | ⟨tbl, h1, h2⟩
  · left
    obtain ⟨pre, ln, line, post, pc1, tbl1, he1, he2, he3⟩ :=
      pass1Aux_error_spec (cleanedLines src) 0 [] e h1
    exact ⟨pre, ln, line, post, pc1, tbl1, he1, he2, he3,
      pass1Line_err_line he3⟩
  · right
    rcases exc_bind_err h2 with h3 | ⟨prog, h3, h4⟩
    · obtain ⟨pre, ln, line, post, is1, he1, he2, he3, he4⟩ :=
        pass2Aux_error_spec (cleanedLines src) e h3
      exact ⟨tbl, h1, pre, ln, line, post, is1, he1, he2, he3, he4,
        encodeStmt_err_line he4⟩
    · exact Except.noConfusion h4

set_option maxRecDepth 40000 in
/-- Witness for the amended C2 at the source `ADD r1` / `foo:` /
`foo:`. -/
theorem c2_first_error_witness :
    (∀ r, assemble (str "ADD r1\nfoo:\nfoo:") ≠ .ok r) ∧
    (FirstPass1Error (str "ADD r1\nfoo:\nfoo:") ⟨3, "duplicate label"⟩ ∨
      ∃ tbl, pass1Aux (cleanedLines (str "ADD r1\nfoo:\nfoo:")) 0 [] = .ok tbl ∧
        FirstPass2Error (str "ADD r1\nfoo:\nfoo:") tbl
          ⟨3, "duplicate label"⟩) :=
  c2_first_error (str "ADD r1\nfoo:\nfoo:") ⟨3, "duplicate label"⟩ rfl

end CPYU
